import Mathlib

/-!
Shallow embedding of the ReelTrust perceptual-digest and windowed-similarity
core (src/reeltrust/fingerprints.py, verifier.py, signer.py, signature.py,
cli.py), together with theorems settling the specification claims.

Numeric conventions: Python floats are modelled as exact rationals (ℚ);
64-bit hashes are natural numbers below 2^64; byte strings are lists of
naturals below 256; external effects (ffmpeg, ffprobe, the filesystem,
SHA-256, float square roots) are inputs or abstract function parameters of
the embedded operations.
-/

namespace ReelTrust

/-! ## Shared helpers: windowing, means, maxima, rounding, timestamps -/

/-- Start indices produced by Python `range(0, n, w)` (the window loops in
`compare_perceptual_hashes`, `compare_frame_statistics` and `compute_ssim`
all iterate this way with `w = window_size`). -/
def windowStarts (n w : ℕ) : List ℕ :=
  (List.range ((n + w - 1) / w)).map (· * w)

/-- The non-overlapping windows of size `w` over a list (last window may be
short), as sliced by `distances_array[start_frame:end_frame]` in the source. -/
def winChunks (w : ℕ) (l : List α) : List (List α) :=
  (windowStarts l.length w).map (fun s => (l.drop s).take w)

/-- `np.mean` over a list of rationals. -/
def qMean (l : List ℚ) : ℚ := l.sum / l.length

/-- Maximum of a non-empty list given as head and tail (Python `max`). -/
def qMax1 (x : ℚ) (xs : List ℚ) : ℚ := xs.foldl max x

/-- Minimum of a non-empty list given as head and tail (Python `min`). -/
def qMin1 (x : ℚ) (xs : List ℚ) : ℚ := xs.foldl min x

/-- Maximum of a non-empty list of naturals (`np.max` over a window). -/
def nMax1 (x : ℕ) (xs : List ℕ) : ℕ := xs.foldl max x

/-- Round a rational to the nearest integer, ties to even (Python `round`). -/
def rndInt (q : ℚ) : ℤ :=
  let f := ⌊q⌋
  if q - f < 1 / 2 then f
  else if q - f > 1 / 2 then f + 1
  else if 2 ∣ f then f else f + 1

/-- Python `round(x, 2)`. -/
def round2 (q : ℚ) : ℚ := (rndInt (q * 100) : ℚ) / 100

/-- Python `round(x, 4)`. -/
def round4 (q : ℚ) : ℚ := (rndInt (q * 10000) : ℚ) / 10000

/-- Two-digit zero padding, as the `:02d` format directive. -/
def pad2 (n : ℕ) : String := if n < 10 then "0" ++ toString n else toString n

/-- The timestamp format `f"{int(t // 60):02d}:{int(t % 60):02d}"` used by the
windowed comparators, for a non-negative time `t` in seconds. -/
def fmtMMSS (t : ℚ) : String :=
  let s := (⌊t⌋).toNat
  pad2 (s / 60) ++ ":" ++ pad2 (s % 60)

/-- `_format_timestamp` from verifier.py: `HH:MM:SS`. -/
def fmtHMS (t : ℚ) : String :=
  let s := (⌊t⌋).toNat
  pad2 (s / 3600) ++ ":" ++ pad2 ((s % 3600) / 60) ++ ":" ++ pad2 (s % 60)

/-- First index attaining the maximum of a list (`np.argmax`), running state
`(index, bestIndex, bestValue)`. -/
def argmaxAux : List ℕ → ℕ → ℕ → ℕ → ℕ
  | [], _, b, _ => b
  | x :: xs, i, b, v => if x > v then argmaxAux xs (i + 1) i x else argmaxAux xs (i + 1) b v

/-- `np.argmax` over a window of Hamming distances. -/
def argmaxN (l : List ℕ) : ℕ :=
  match l with
  | [] => 0
  | x :: xs => argmaxAux xs 1 0 x

/-- First index attaining the maximum of a list of rationals. -/
def argmaxQAux : List ℚ → ℕ → ℕ → ℚ → ℕ
  | [], _, b, _ => b
  | x :: xs, i, b, v => if x > v then argmaxQAux xs (i + 1) i x else argmaxQAux xs (i + 1) b v

/-- `np.argmax` over a list of rationals (frame MADs). -/
def argmaxQ (l : List ℚ) : ℕ :=
  match l with
  | [] => 0
  | x :: xs => argmaxQAux xs 1 0 x

/-- Structurally recursive population count: `popCountAux fuel n` equals the
number of set bits of `n` whenever `fuel ≥ n`. -/
def popCountAux : ℕ → ℕ → ℕ
  | 0, _ => 0
  | _, 0 => 0
  | fuel + 1, n + 1 => (n + 1) % 2 + popCountAux fuel ((n + 1) / 2)

/-- `bin(x).count('1')`: the number of set bits of a natural number. -/
def popCount (n : ℕ) : ℕ := popCountAux n n

/-- `hamming_distance` from fingerprints.py: the Hamming distance between two
64-bit hashes, `bin(hash1 ^ hash2).count('1')`. -/
def hamming_distance (hash1 hash2 : ℕ) : ℕ := popCount (hash1 ^^^ hash2)

/-- Little-endian unsigned interpretation of a byte list
(`struct.unpack('<Q', ...)` on an 8-byte slice). -/
def leNat : List ℕ → ℕ
  | [] => 0
  | b :: bs => b + 2 ^ 8 * leNat bs

/-- Little-endian 8-byte encoding of a 64-bit value (`struct.pack('<Q', n)`). -/
def leBytes8 (n : ℕ) : List ℕ :=
  [n % 2 ^ 8, n / 2 ^ 8 % 2 ^ 8, n / 2 ^ 16 % 2 ^ 8, n / 2 ^ 24 % 2 ^ 8,
   n / 2 ^ 32 % 2 ^ 8, n / 2 ^ 40 % 2 ^ 8, n / 2 ^ 48 % 2 ^ 8, n / 2 ^ 56 % 2 ^ 8]

/-- Stable insertion by a boolean "goes before or keeps order" test. -/
def ordInsertBy (le : α → α → Bool) (a : α) : List α → List α
  | [] => [a]
  | b :: l => if le a b then a :: b :: l else b :: ordInsertBy le a l

/-- Stable insertion sort: the semantics of Python `sorted` with a key
(`le a b` meaning: `a` may be placed before `b`). -/
def sortBy (le : α → α → Bool) : List α → List α
  | [] => []
  | b :: l => ordInsertBy le b (sortBy le l)

/-! ## compare_perceptual_hashes (fingerprints.py) -/

/-- One entry of `window_info` in `compare_perceptual_hashes`. -/
structure HashWindow where
  start_frame : ℕ
  end_frame : ℕ
  start_time : String
  end_time : String
  mean_distance : ℚ
  max_distance : ℕ
  max_distance_frame : ℕ
  max_distance_time : String
  deriving Repr, DecidableEq

/-- The verdict dictionary returned by `compare_perceptual_hashes` on the
non-error path. -/
structure HashCompare where
  frame_count : ℕ
  window_count : ℕ
  worst_window_mean_distance : ℚ
  overall_mean_distance : ℚ
  max_frame_distance : ℕ
  perfect_match_pct : ℚ
  is_valid : Bool
  threshold_bits : ℚ
  worst_windows : List HashWindow
  deriving Repr, DecidableEq

/-- A returned dictionary of `compare_perceptual_hashes`: either one of the
two early `{'is_valid': False, 'error': ...}` returns, or the full verdict. -/
inductive HashOutcome
  | errorDict (is_valid : Bool) (error : String)
  | result (r : HashCompare)
  deriving Repr, DecidableEq

/-- Build one `window_info` entry from a window start index and the window's
slice of the distance array. -/
def mkHashWindow (fps : ℚ) (start_frame : ℕ) (w : List ℕ) : HashWindow :=
  let end_frame := start_frame + w.length
  let window_mean := qMean (w.map (fun d : ℕ => (d : ℚ)))
  let window_max := nMax1 (w.headD 0) w.tail
  let max_distance_frame := start_frame + argmaxN w
  { start_frame := start_frame
    end_frame := end_frame
    start_time := fmtMMSS ((start_frame : ℚ) / fps)
    end_time := fmtMMSS ((end_frame : ℚ) / fps)
    mean_distance := round2 window_mean
    max_distance := window_max
    max_distance_frame := max_distance_frame
    max_distance_time := fmtMMSS ((max_distance_frame : ℚ) / fps) }

/-- `compare_perceptual_hashes` from fingerprints.py (with the default
`hash_size = 8`): `.ok` is a dictionary the Python function returns, `.error`
is a raised exception (the `max()` of an empty `window_means` list). -/
def compare_perceptual_hashes (computed_data stored_data : List ℕ)
    (window_size : ℕ) (fps : ℚ) : Except String HashOutcome :=
  let bytes_per_hash := 8
  if computed_data.length ≠ stored_data.length then
    .ok (.errorDict false "Hash data length mismatch")
  else if computed_data.length % bytes_per_hash ≠ 0 then
    .ok (.errorDict false "Invalid hash data length (not multiple of 8)")
  else
    let frame_count := computed_data.length / bytes_per_hash
    let computed_hashes := (winChunks bytes_per_hash computed_data).map leNat
    let stored_hashes := (winChunks bytes_per_hash stored_data).map leNat
    let distances := List.zipWith hamming_distance computed_hashes stored_hashes
    let perfect_matches := (distances.filter (fun d => d = 0)).length
    let window_slices := winChunks window_size distances
    let window_means := window_slices.map (fun w => qMean (w.map (fun d : ℕ => (d : ℚ))))
    let window_info := ((windowStarts frame_count window_size).zip window_slices).map
      (fun p => mkHashWindow fps p.1 p.2)
    match window_means with
    | [] => .error "max() arg is an empty sequence"
    | m :: ms =>
      let worst_window_mean := qMax1 m ms
      let overall_mean_distance := qMean (distances.map (fun d : ℕ => (d : ℚ)))
      let max_frame_distance := nMax1 (distances.headD 0) distances.tail
      let perfect_match_pct := ((perfect_matches : ℚ) / (frame_count : ℚ)) * 100
      let threshold : ℚ := 5
      let worst_windows :=
        (sortBy (fun a b => b.mean_distance ≤ a.mean_distance) window_info).take 3
      .ok (.result
        { frame_count := frame_count
          window_count := window_means.length
          worst_window_mean_distance := round2 worst_window_mean
          overall_mean_distance := round2 overall_mean_distance
          max_frame_distance := max_frame_distance
          perfect_match_pct := round2 perfect_match_pct
          is_valid := decide (worst_window_mean < threshold)
          threshold_bits := threshold
          worst_windows := worst_windows })

/-! ## Spec-side views of the hash comparison pipeline -/

/-- The per-frame 64-bit hash sequence decoded from a fingerprint byte string
(little-endian u64 per 8-byte record). -/
def hashSeq (data : List ℕ) : List ℕ := (winChunks 8 data).map leNat

/-- The per-frame Hamming distance array `D[0..N)`. -/
def frameDistances (c s : List ℕ) : List ℕ :=
  List.zipWith hamming_distance (hashSeq c) (hashSeq s)

/-- Mean per-frame Hamming distance of each non-overlapping window. -/
def windowMeanDistances (c s : List ℕ) (w : ℕ) : List ℚ :=
  (winChunks w (frameDistances c s)).map (fun l => qMean (l.map (fun d : ℕ => (d : ℚ))))

/-- The claimed verdict metric: maximum over non-overlapping windows of the
window-mean Hamming distance (`none` when there is no window). -/
def specWorstMean (c s : List ℕ) (w : ℕ) : Option ℚ :=
  match windowMeanDistances c s w with
  | [] => none
  | m :: ms => some (qMax1 m ms)

/-- Extract the `worst_window_mean_distance` field of a comparison outcome. -/
def worstField (o : Except String HashOutcome) : Option ℚ :=
  match o with
  | .ok (.result r) => some r.worst_window_mean_distance
  | _ => none

/-- Extract the `is_valid` field of a full comparison verdict. -/
def validField (o : Except String HashOutcome) : Option Bool :=
  match o with
  | .ok (.result r) => some r.is_valid
  | _ => none

/-- Replace the `i`-th 64-bit frame hash of a fingerprint byte string by its
XOR with `mask` (the byte-level effect of flipping the bits of that frame's
hash selected by `mask`). -/
def modifyFrame (data : List ℕ) (i mask : ℕ) : List ℕ :=
  data.take (8 * i) ++ leBytes8 (leNat ((data.drop (8 * i)).take 8) ^^^ mask)
    ++ data.drop (8 * i + 8)

/-! ## compare_frame_statistics (fingerprints.py) -/

/-- One frame's YUV statistics record. -/
structure FrameStats where
  y_mean : ℚ
  y_std : ℚ
  u_mean : ℚ
  u_std : ℚ
  v_mean : ℚ
  v_std : ℚ
  deriving Repr, DecidableEq

/-- The six channels, in the order of the source's `channels` list. -/
def channels : List (FrameStats → ℚ) :=
  [FrameStats.y_mean, FrameStats.y_std, FrameStats.u_mean, FrameStats.u_std,
   FrameStats.v_mean, FrameStats.v_std]

/-- `np.allclose` with its default tolerances
(`|a - b| ≤ atol + rtol * |b|` elementwise, `rtol = 1e-5`, `atol = 1e-8`). -/
def allclose (a b : List ℚ) : Bool :=
  (a.zip b).all (fun p => decide (|p.1 - p.2| ≤ 1 / 10 ^ 8 + (1 / 10 ^ 5) * |p.2|))

/-- Numerator of the Pearson correlation: `Σ (xᵢ - x̄)(yᵢ - ȳ)`. -/
def corrNum (x y : List ℚ) : ℚ :=
  ((x.zip y).map (fun p => (p.1 - qMean x) * (p.2 - qMean y))).sum

/-- `Σ (xᵢ - x̄)²`, the (scaled) variance appearing in the correlation
denominator. -/
def varSum (x : List ℚ) : ℚ := (x.map (fun v => (v - qMean x) ^ 2)).sum

/-- `np.corrcoef(x, y)[0, 1]` with an abstract square root for the float
`sqrt`; `none` is the NaN produced when either input has zero variance. -/
def corrcoef (sqrt : ℚ → ℚ) (x y : List ℚ) : Option ℚ :=
  if varSum x * varSum y = 0 then none
  else some (corrNum x y / sqrt (varSum x * varSum y))

/-- The per-channel per-window correlation of `compare_frame_statistics`:
`corrcoef` when the window has more than one point, with the NaN and the
single-point cases resolved by `np.allclose`. -/
def windowChannelCorr (sqrt : ℚ → ℚ) (cw sw : List ℚ) : ℚ :=
  if cw.length > 1 then
    match corrcoef sqrt cw sw with
    | some c => c
    | none => if allclose cw sw then 1 else 0
  else if allclose cw sw then 1 else 0

/-- Mean across the six channels of the per-channel window correlations. -/
def codeWindowCorr (sqrt : ℚ → ℚ) (cw sw : List FrameStats) : ℚ :=
  qMean (channels.map (fun ch => windowChannelCorr sqrt (cw.map ch) (sw.map ch)))

/-- Mean across the six channels of the per-channel window
mean-absolute-differences. -/
def codeWindowMad (cw sw : List FrameStats) : ℚ :=
  qMean (channels.map
    (fun ch => qMean (((cw.map ch).zip (sw.map ch)).map (fun p => |p.1 - p.2|))))

/-- Mean across the six channels of one frame pair's absolute differences
(`frame_mad_sum / len(channels)`). -/
def frameMad (a b : FrameStats) : ℚ :=
  ((channels.map (fun ch => |ch a - ch b|)).sum) / (channels.length : ℚ)

/-- One entry of `window_info` in `compare_frame_statistics`. -/
structure StatsWindow where
  start_frame : ℕ
  end_frame : ℕ
  start_time : String
  end_time : String
  correlation : ℚ
  mad : ℚ
  max_mad_frame : ℕ
  max_mad_value : ℚ
  max_mad_time : String
  deriving Repr, DecidableEq

/-- Build one `window_info` entry of `compare_frame_statistics`. -/
def mkStatsWindow (sqrt : ℚ → ℚ) (fps : ℚ) (start_frame : ℕ)
    (cw sw : List FrameStats) : StatsWindow :=
  let end_frame := start_frame + cw.length
  let frame_mads := ((cw.zip sw).map (fun p => frameMad p.1 p.2))
  let max_mad_idx := argmaxQ frame_mads
  let max_mad_frame := start_frame + max_mad_idx
  { start_frame := start_frame
    end_frame := end_frame
    start_time := fmtMMSS ((start_frame : ℚ) / fps)
    end_time := fmtMMSS ((end_frame : ℚ) / fps)
    correlation := round4 (codeWindowCorr sqrt cw sw)
    mad := round2 (codeWindowMad cw sw)
    max_mad_frame := max_mad_frame
    max_mad_value := round2 (frame_mads.getD max_mad_idx 0)
    max_mad_time := fmtMMSS ((max_mad_frame : ℚ) / fps) }

/-- The verdict dictionary returned by `compare_frame_statistics` on the
non-error path. -/
structure StatsCompare where
  frame_count : ℕ
  window_count : ℕ
  worst_window_correlation : ℚ
  worst_window_mad : ℚ
  overall_correlation : ℚ
  overall_mad : ℚ
  is_valid : Bool
  correlation_threshold : ℚ
  mad_threshold : ℚ
  worst_windows : List StatsWindow
  deriving Repr, DecidableEq

/-- A returned dictionary of `compare_frame_statistics`. -/
inductive StatsOutcome
  | errorDict (is_valid : Bool) (error : String)
  | result (r : StatsCompare)
  deriving Repr, DecidableEq

/-- `compare_frame_statistics` from fingerprints.py. `sqrt` abstracts the
floating-point square root inside `np.corrcoef`; `.error` marks a raised
exception (unreachable: the empty input returns an error dictionary first). -/
def compare_frame_statistics (sqrt : ℚ → ℚ) (computed_stats stored_stats : List FrameStats)
    (window_size : ℕ) (fps : ℚ) : Except String StatsOutcome :=
  if computed_stats.length ≠ stored_stats.length then
    .ok (.errorDict false "Frame count mismatch")
  else if computed_stats.length = 0 then
    .ok (.errorDict false "No frame statistics to compare")
  else
    let frame_count := computed_stats.length
    let pairs := (winChunks window_size computed_stats).zip (winChunks window_size stored_stats)
    let window_correlations := pairs.map (fun p => codeWindowCorr sqrt p.1 p.2)
    let window_mads := pairs.map (fun p => codeWindowMad p.1 p.2)
    let window_info := ((windowStarts frame_count window_size).zip pairs).map
      (fun q => mkStatsWindow sqrt fps q.1 q.2.1 q.2.2)
    match window_correlations, window_mads with
    | [], _ => .error "min() arg is an empty sequence"
    | _, [] => .error "max() arg is an empty sequence"
    | c0 :: cs, m0 :: ms =>
      let worst_window_correlation := qMin1 c0 cs
      let worst_window_mad := qMax1 m0 ms
      let overall_correlations := channels.map (fun ch =>
        match corrcoef sqrt (computed_stats.map ch) (stored_stats.map ch) with
        | some c => c
        | none => if allclose (computed_stats.map ch) (stored_stats.map ch) then 1 else 0)
      let overall_mads := channels.map (fun ch =>
        qMean (((computed_stats.map ch).zip (stored_stats.map ch)).map
          (fun p => |p.1 - p.2|)))
      let correlation_threshold : ℚ := 90 / 100
      let mad_threshold : ℚ := 8 / 10
      let worst_windows :=
        (sortBy (fun a b => a.correlation ≤ b.correlation) window_info).take 3
      .ok (.result
        { frame_count := frame_count
          window_count := window_correlations.length
          worst_window_correlation := round4 worst_window_correlation
          worst_window_mad := round2 worst_window_mad
          overall_correlation := round4 (qMean overall_correlations)
          overall_mad := round2 (qMean overall_mads)
          is_valid := decide (worst_window_correlation ≥ correlation_threshold
            ∧ worst_window_mad < mad_threshold)
          correlation_threshold := correlation_threshold
          mad_threshold := mad_threshold
          worst_windows := worst_windows })

/-- The specification's per-channel window correlation: Pearson correlation,
with an undefined value (single point or zero variance) treated as 1.0 for
*identical* window slices and 0.0 otherwise. -/
def specChanCorr (sqrt : ℚ → ℚ) (cw sw : List ℚ) : ℚ :=
  if cw.length ≤ 1 ∨ varSum cw * varSum sw = 0 then (if cw = sw then 1 else 0)
  else corrNum cw sw / sqrt (varSum cw * varSum sw)

/-- Mean across the six channels of the specification's window correlation. -/
def specWindowCorr (sqrt : ℚ → ℚ) (cw sw : List FrameStats) : ℚ :=
  qMean (channels.map (fun ch => specChanCorr sqrt (cw.map ch) (sw.map ch)))

/-- The claimed verdict pair: (minimum over windows of the mean-across-channels
correlation, maximum over windows of the mean-across-channels MAD). -/
def specWorstStats (sqrt : ℚ → ℚ) (c s : List FrameStats) (w : ℕ) : Option (ℚ × ℚ) :=
  match (winChunks w c).zip (winChunks w s) with
  | [] => none
  | p :: ps =>
    some (qMin1 (specWindowCorr sqrt p.1 p.2) (ps.map (fun q => specWindowCorr sqrt q.1 q.2)),
          qMax1 (codeWindowMad p.1 p.2) (ps.map (fun q => codeWindowMad q.1 q.2)))

/-- A value of the frame-statistics data model: quantized to two decimal
places (`round(x, 2)` at fingerprint-creation time) and bounded (YUV means
and standard deviations lie in `[0, 255]`). -/
def quantStat (q : ℚ) : Prop := (∃ z : ℤ, q = z / 100) ∧ |q| ≤ 500

/-- A frame-statistics record of the data model: each channel quantized. -/
def quantFS (f : FrameStats) : Prop := ∀ ch ∈ channels, quantStat (ch f)

/-! ## merge_overlapping_windows (verifier.py) -/

/-- The part of a worst-window dictionary consumed by the Evidence
Extractor. -/
structure WWindow where
  start_frame : ℕ
  end_frame : ℕ
  deriving Repr, DecidableEq

/-- A (possibly merged) audit clip. -/
structure Clip where
  start_time : ℚ
  end_time : ℚ
  windows : List WWindow
  deriving Repr, DecidableEq

/-- Convert a worst window to a clip with context padding
(`max(0.0, start_seconds - context_seconds)`). -/
def toClip (fps context_seconds : ℚ) (w : WWindow) : Clip :=
  { start_time := max 0 ((w.start_frame : ℚ) / fps - context_seconds)
    end_time := (w.end_frame : ℚ) / fps
    windows := [w] }

/-- The greedy merge loop over the sorted clip list (`current` accumulator). -/
def mergeAux : Clip → List Clip → List Clip
  | current, [] => [current]
  | current, next :: rest =>
    if next.start_time ≤ current.end_time + 5 then
      mergeAux { start_time := current.start_time
                 end_time := max current.end_time next.end_time
                 windows := current.windows ++ next.windows } rest
    else
      current :: mergeAux next rest

/-- The merge phase: empty list for no clips, else the greedy loop seeded
with `clips[0]`. -/
def mergeList : List Clip → List Clip
  | [] => []
  | c :: cs => mergeAux c cs

/-- `merge_overlapping_windows` from verifier.py: pad each window by
`context_seconds` of lead-in, sort by start time, then greedily merge clips
whose gap is at most 5 seconds. -/
def merge_overlapping_windows (windows : List WWindow) (fps context_seconds : ℚ) :
    List Clip :=
  mergeList (sortBy (fun a b => decide (a.start_time ≤ b.start_time))
    (windows.map (toClip fps context_seconds)))

/-- The `(start_time, end_time)` intervals of a clip list. -/
def clipPairs (l : List Clip) : List (ℚ × ℚ) :=
  l.map (fun c => (c.start_time, c.end_time))

/-- A clip whose interval is well-formed (start before end). -/
def ValidClip (c : Clip) : Prop := c.start_time ≤ c.end_time

/-! ## JSON canonicalization and signatures (signature.py) -/

/-- A JSON value (numbers restricted to integers: every number the signer
writes into a manifest without optional properties is absent, and the
verifier reads only the integral `frame_count`). -/
inductive Json where
  | null
  | bool (b : Bool)
  | num (n : ℤ)
  | str (s : String)
  | arr (items : List Json)
  | obj (entries : List (String × Json))

/-- Escape a character for a JSON string literal (quotes and backslashes;
manifest strings contain no control characters). -/
def jsonEscapeChar (c : Char) : String :=
  if c = '"' then "\\\"" else if c = '\\' then "\\\\" else String.singleton c

/-- Escape a string for a JSON string literal. -/
def jsonEscape (s : String) : String := String.join (s.toList.map jsonEscapeChar)

mutual

/-- Recursively sort every object's keys (the effect of `sort_keys=True`). -/
def sortJson : Json → Json
  | .null => .null
  | .bool b => .bool b
  | .num n => .num n
  | .str s => .str s
  | .arr items => .arr (sortJsonList items)
  | .obj entries =>
    .obj (sortBy (fun a b => decide (a.1 ≤ b.1)) (sortJsonEntries entries))

/-- Sort keys inside every element of a JSON array. -/
def sortJsonList : List Json → List Json
  | [] => []
  | j :: t => sortJson j :: sortJsonList t

/-- Sort keys inside every value of a JSON object. -/
def sortJsonEntries : List (String × Json) → List (String × Json)
  | [] => []
  | (k, v) :: t => (k, sortJson v) :: sortJsonEntries t

end

mutual

/-- Serialize a JSON value with `(',', ':')` separators and no whitespace. -/
def serJson : Json → String
  | .null => "null"
  | .bool b => cond b "true" "false"
  | .num n => toString n
  | .str s => "\"" ++ jsonEscape s ++ "\""
  | .arr items => "[" ++ serJsonList items ++ "]"
  | .obj entries => "\x7b" ++ serJsonEntries entries ++ "\x7d"

/-- Serialize the comma-separated elements of a JSON array. -/
def serJsonList : List Json → String
  | [] => ""
  | [j] => serJson j
  | j :: rest => serJson j ++ "," ++ serJsonList rest

/-- Serialize the comma-separated `"key":value` entries of a JSON object. -/
def serJsonEntries : List (String × Json) → String
  | [] => ""
  | [(k, v)] => "\"" ++ jsonEscape k ++ "\":" ++ serJson v
  | (k, v) :: rest => "\"" ++ jsonEscape k ++ "\":" ++ serJson v ++ "," ++ serJsonEntries rest

end

/-- `json.dumps(manifest_data, sort_keys=True, separators=(",", ":"))`. -/
def canonical (j : Json) : String := serJson (sortJson j)

/-- `calculate_manifest_hash` from signature.py, with the SHA-256 function
abstracted as `h`: the hash of the canonical JSON form of the manifest. -/
def calculate_manifest_hash (h : String → String) (manifest_data : Json) : String :=
  h (canonical manifest_data)

/-- The signature dictionary of signature.py. -/
structure Signature where
  version : String
  algorithm : String
  manifest_hash : String
  note : String
  deriving Repr

/-- `create_signature` from signature.py. -/
def create_signature (h : String → String) (manifest_data : Json) : Signature :=
  { version := "1.0"
    algorithm := "SHA-256"
    manifest_hash := calculate_manifest_hash h manifest_data
    note := "This is a cryptographic hash. Future versions will support digital signatures with certificate chains." }

/-- `create_manifest` from signature.py (`digest_properties` restricted to
the keys the function copies; both optional arguments default to absent). -/
def create_manifest (original_video_hash digest_video_hash audio_fingerprint_hash
    metadata_hash : String) (digest_properties : Option (List (String × Json)))
    (fingerprint_metadata : Option Json) : Json :=
  let base_digest_entry : List (String × Json) :=
    [("sha256", .str digest_video_hash),
     ("description", .str "Compressed reference video digest")]
  let digest_entry :=
    match digest_properties with
    | none => base_digest_entry
    | some props => base_digest_entry
        ++ (["frame_count", "fps", "duration"].filterMap
          (fun k => (props.lookup k).map (fun v => (k, v))))
  let entries : List (String × Json) :=
    [("version", .str "1.0"),
     ("package_id", .str (original_video_hash.take 16)),
     ("files", .obj
       [("digest_video.mp4", .obj digest_entry),
        ("audio_fingerprint.json", .obj
          [("sha256", .str audio_fingerprint_hash),
           ("description", .str "Audio fingerprint data")]),
        ("metadata.json", .obj
          [("sha256", .str metadata_hash),
           ("description", .str "Video metadata and creation info")])]),
     ("original_video", .obj
       [("sha256", .str original_video_hash),
        ("description", .str "SHA-256 hash of the original source video")])]
  match fingerprint_metadata with
  | none => .obj entries
  | some fm => .obj (entries ++ [("fingerprints", fm)])

/-! ## sign_video (signer.py) -/

/-- External inputs to a sign run: the SHA-256 file hashes the orchestrator
obtains from `hash_file` on the artifacts it produced. -/
structure SignEnv where
  original_video_hash : String
  digest_video_hash : String
  audio_fingerprint_hash : String
  metadata_hash : String

/-- The on-disk outcome of a sign run: the package files written (in order)
and the manifest/signature contents. -/
structure SignResult where
  writtenFiles : List String
  manifest : Json
  signature : Signature

/-- `sign_video` from signer.py at orchestration level: hash the source,
compress to `digest_video.mp4`, fingerprint the audio, write metadata, then
assemble the manifest (no optional arguments passed) and the signature. -/
def sign_video (h : String → String) (env : SignEnv) : SignResult :=
  let manifest := create_manifest env.original_video_hash env.digest_video_hash
    env.audio_fingerprint_hash env.metadata_hash none none
  let signature := create_signature h manifest
  { writtenFiles := ["digest_video.mp4", "audio_fingerprint.json", "metadata.json",
      "manifest.json", "signature.json"]
    manifest := manifest
    signature := signature }

/-- Lookup of a key in a JSON object (`None`-free `dict.get(k, d)`). -/
def jget (j : Json) (k : String) (d : Json) : Json :=
  match j with
  | .obj es => (es.lookup k).getD d
  | _ => d

/-! ## compute_ssim and verify_video_digest (verifier.py) -/

/-- One SSIM window record; the single-window short-video branch omits the
`min_ssim` fields. -/
structure SsimWindow where
  start_frame : ℕ
  end_frame : ℕ
  start_time : String
  end_time : String
  ssim : ℚ
  min_ssim : Option ℚ
  min_ssim_frame : Option ℕ
  min_ssim_time : Option String
  deriving Repr, DecidableEq

/-- Build one window record of `compute_ssim`'s long-video loop from the
window's start index and slice of the score sequence. -/
def mkSsimWindow (fps : ℚ) (start_frame : ℕ) (w : List ℚ) : SsimWindow :=
  let end_frame := start_frame + w.length - 1
  let window_min := qMin1 (w.headD 0) w.tail
  let absolute_min_frame := start_frame + w.indexOf window_min
  { start_frame := start_frame
    end_frame := end_frame
    start_time := fmtHMS ((start_frame : ℚ) / fps)
    end_time := fmtHMS ((end_frame : ℚ) / fps)
    ssim := qMean w
    min_ssim := some window_min
    min_ssim_frame := some absolute_min_frame
    min_ssim_time := some (fmtHMS ((absolute_min_frame : ℚ) / fps)) }

/-- The pure core of `compute_ssim` from verifier.py, applied to the
per-frame overall-SSIM scores parsed from the FFmpeg stats file. Returns
`(min_window_ssim, min_frame_ssim, worst_windows)`; `.error` is a raised
exception. -/
def compute_ssim (ssim_scores : List ℚ) (window_size : ℕ) (fps : ℚ) :
    Except String (ℚ × ℚ × List SsimWindow) :=
  match ssim_scores with
  | [] => .error "No SSIM scores found in FFmpeg output"
  | s0 :: rest =>
    let min_frame_ssim := qMin1 s0 rest
    let num_frames := (s0 :: rest).length
    if num_frames ≤ window_size then
      let avg_ssim := qMean (s0 :: rest)
      .ok (avg_ssim, min_frame_ssim,
        [{ start_frame := 0
           end_frame := num_frames - 1
           start_time := "00:00:00"
           end_time := fmtHMS (((num_frames - 1 : ℕ) : ℚ) / fps)
           ssim := avg_ssim
           min_ssim := none
           min_ssim_frame := none
           min_ssim_time := none }])
    else
      let window_data := ((windowStarts num_frames window_size).zip
        (winChunks window_size (s0 :: rest))).map (fun p => mkSsimWindow fps p.1 p.2)
      let sorted_windows := sortBy (fun a b => decide (a.ssim ≤ b.ssim)) window_data
      match sorted_windows with
      | [] => .error "list index out of range"
      | w0 :: _ => .ok (w0.ssim, min_frame_ssim, sorted_windows.take 3)

/-- A value stored in the verification result's `details` dictionary. -/
inductive Detail where
  | str (s : String)
  | q (x : ℚ)
  | nat (n : ℕ)
  | int (n : ℤ)
  | json (j : Json)
  | windows (ws : List SsimWindow)

/-- External inputs to a verify run: filesystem state of the package, the
loaded manifest/signature, and the outcomes of the external tool
invocations. `none` models a raised exception in the corresponding call. -/
structure VerifyEnv where
  packageIsDir : Bool
  manifestExists : Bool
  signatureExists : Bool
  digestExists : Bool
  loadOk : Bool
  manifest : List (String × Json)
  sigManifestHash : String
  compressOk : Bool
  recreatedHash : String
  ssimScores : Option (List ℚ)
  recreatedFrames : Option ℕ
  storedProbeFrames : Option ℕ

/-- The `VerificationResult` object; `ssimComputed` additionally records
whether `compute_ssim` was invoked. -/
structure VResult where
  is_valid : Bool
  checks : List (String × Bool)
  details : List (String × Detail)
  errors : List String
  ssimComputed : Bool

/-- `checks.get(name, False)`. -/
def lookupD (checks : List (String × Bool)) (k : String) : Bool :=
  (checks.lookup k).getD false

/-- `manifest.get("files", {}).get("digest_video.mp4", {}).get("sha256", "")`. -/
def storedDigestSha (manifest : List (String × Json)) : Json :=
  jget (jget (jget (Json.obj manifest) "files" (.obj []))
    "digest_video.mp4" (.obj [])) "sha256" (.str "")

/-- Steps 4–5 of `verify_video_digest`: digest hash comparison, falling back
to the SSIM comparison when the hashes differ. Returns the two content check
bits, the details and errors produced, and whether SSIM ran. -/
def contentStep (env : VerifyEnv) (ssim_threshold : ℚ) :
    Bool × Bool × List (String × Detail) × List String × Bool :=
  let stored_digest_hash := storedDigestSha env.manifest
  let base_details : List (String × Detail) :=
    [("recreated_digest_hash", .str env.recreatedHash),
     ("stored_digest_hash", .json stored_digest_hash)]
  let hash_match :=
    match stored_digest_hash with
    | Json.str s => decide (env.recreatedHash = s)
    | _ => false
  if hash_match then
    (true, true, base_details ++ [("ssim_score", .q 1)], [], false)
  else
    match env.ssimScores with
    | none =>
      (false, false, base_details, ["Failed to compute SSIM"], true)
    | some scores =>
      match compute_ssim scores 60 30 with
      | .error e => (false, false, base_details, ["Failed to compute SSIM: " ++ e], true)
      | .ok (ssim_score, min_frame_ssim, worst_windows) =>
        let d2 := base_details ++
          [("ssim_score", .q ssim_score), ("min_frame_ssim", .q min_frame_ssim),
           ("worst_windows", .windows worst_windows)]
        if ssim_score ≥ ssim_threshold then
          (false, true, d2 ++ [("ssim_note", .str "Hashes differ but SSIM meets threshold")],
            [], true)
        else
          (false, false, d2, ["SSIM score below threshold"], true)

/-- Step 6 of `verify_video_digest`: frame-count validation, preferring the
manifest's `frame_count` and falling back to probing the stored digest. -/
def frameStep (env : VerifyEnv) : Bool × List (String × Detail) × List String :=
  match env.recreatedFrames with
  | none => (false, [], ["Failed to verify frame counts"])
  | some recreated_frames =>
    let mfc : Option Json :=
      match jget (jget (Json.obj env.manifest) "files" (.obj []))
        "digest_video.mp4" (.obj []) with
      | .obj es =>
        match es.lookup "frame_count" with
        | some Json.null => none
        | o => o
      | _ => none
    match mfc with
    | some v =>
      let d := [("recreated_frame_count", Detail.nat recreated_frames),
                ("stored_frame_count", Detail.json v)]
      let eq :=
        match v with
        | Json.num z => decide ((recreated_frames : ℤ) = z)
        | _ => false
      if eq then (true, d, []) else (false, d, ["Frame count mismatch"])
    | none =>
      match env.storedProbeFrames with
      | none => (false, [], ["Failed to verify frame counts"])
      | some stored_frames =>
        let d := [("recreated_frame_count", Detail.nat recreated_frames),
                  ("stored_frame_count", Detail.nat stored_frames)]
        if recreated_frames = stored_frames then
          (true, d, [])
        else
          (false, d, ["Frame count mismatch"])

/-- `verify_video_digest` from verifier.py: structure check, manifest
integrity, digest recreation, content check (hash fast path or SSIM), frame
counts, and the overall verdict. -/
def verify_video_digest (h : String → String) (env : VerifyEnv)
    (compression_width : ℕ) (ssim_threshold : ℚ) : VResult :=
  if ¬ env.packageIsDir then
    { is_valid := false, checks := [], details := [],
      errors := ["Package directory does not exist"], ssimComputed := false }
  else
    let missing_files :=
      (if env.manifestExists then [] else ["manifest.json"])
      ++ (if env.signatureExists then [] else ["signature.json"])
      ++ (if env.digestExists then [] else ["digest_video.mp4"])
    if missing_files ≠ [] then
      { is_valid := false, checks := [("package_structure", false)], details := [],
        errors := ["Missing required files"], ssimComputed := false }
    else if ¬ env.loadOk then
      { is_valid := false,
        checks := [("package_structure", true), ("manifest_integrity", false)],
        details := [], errors := ["Failed to verify manifest"], ssimComputed := false }
    else
      let calculated_hash := calculate_manifest_hash h (Json.obj env.manifest)
      let integrity := decide (calculated_hash = env.sigManifestHash)
      let integrity_errors := if integrity then [] else ["Manifest integrity check failed"]
      if ¬ env.compressOk then
        { is_valid := false,
          checks := [("package_structure", true), ("manifest_integrity", integrity),
            ("digest_recreation", false)],
          details := [],
          errors := integrity_errors ++ ["Failed to recreate digest video"],
          ssimComputed := false }
      else
        let co := contentStep env ssim_threshold
        let fr := frameStep env
        let checks := [("package_structure", true), ("manifest_integrity", integrity),
          ("digest_hash_match", co.1), ("ssim_score", co.2.1),
          ("frame_count_match", fr.1)]
        let required_checks := ["package_structure", "manifest_integrity",
          "frame_count_match"]
        let required_pass := required_checks.all (fun c => lookupD checks c)
        let content_match := lookupD checks "digest_hash_match"
          || lookupD checks "ssim_score"
        { is_valid := required_pass && content_match
          checks := checks
          details := co.2.2.1 ++ fr.2.1
          errors := integrity_errors ++ co.2.2.2.1 ++ fr.2.2
          ssimComputed := co.2.2.2.2 }

/-- The CLI's verify command (cli.py): `verify_video_digest` with the default
compression width 240 and the verify-time SSIM threshold 0.92. -/
def cli_verify (h : String → String) (env : VerifyEnv) : VResult :=
  verify_video_digest h env 240 (92 / 100)

/-- The claimed verify-time SSIM verdict: minimum over non-overlapping
60-frame windows (last possibly short) of the window-mean SSIM. -/
def specMinWindowSsim (scores : List ℚ) : Option ℚ :=
  match (winChunks 60 scores).map qMean with
  | [] => none
  | m :: ms => some (qMin1 m ms)

/-- A verify environment whose recomputed digest hash matches the stored one. -/
def envC1 : VerifyEnv :=
  { packageIsDir := true
    manifestExists := true
    signatureExists := true
    digestExists := true
    loadOk := true
    manifest := [("files", Json.obj [("digest_video.mp4",
      Json.obj [("sha256", Json.str "abc")])])]
    sigManifestHash := ""
    compressOk := true
    recreatedHash := "abc"
    ssimScores := none
    recreatedFrames := none
    storedProbeFrames := none }

/-- A verify environment whose recomputed digest hash differs from the stored
one and whose FFmpeg SSIM pass yields a single perfect score. -/
def envC2 : VerifyEnv :=
  { envC1 with recreatedHash := "xyz", ssimScores := some [1] }

/-- A verify environment whose signature carries the hash of the canonical
form of the saved manifest (here with the hash oracle constantly "H"). -/
def envC7 : VerifyEnv :=
  { envC1 with manifest := [], sigManifestHash := "H" }

/-! ## Theorems -/

/-! ## Structural lemmas about windowing -/

theorem length_windowStarts (n w : ℕ) : (windowStarts n w).length = (n + w - 1) / w := by
  simp [windowStarts]

theorem length_winChunks (w : ℕ) (l : List α) :
    (winChunks w l).length = (l.length + w - 1) / w := by
  simp [winChunks, length_windowStarts]

theorem winChunks_nil (w : ℕ) : winChunks w ([] : List α) = [] := by
  rcases Nat.eq_zero_or_pos w with hw | hw
  · subst hw; simp [winChunks, windowStarts]
  · simp only [winChunks, windowStarts, List.length_nil]
    rw [Nat.div_eq_of_lt (by omega)]
    simp

theorem windowStarts_cons {n w : ℕ} (hw : 0 < w) (hn : 0 < n) :
    windowStarts n w = 0 :: (windowStarts (n - w) w).map (· + w) := by
  have h1 : (n + w - 1) / w = (n - 1) / w + 1 := by
    have : n + w - 1 = (n - 1) + w := by omega
    rw [this, Nat.add_div_right _ hw]
  have h2 : (n - w + w - 1) / w = (n - 1) / w := by
    rcases Nat.lt_or_ge w n with h | h
    · congr 1; omega
    · have e1 : n - w = 0 := by omega
      rw [e1]
      rw [Nat.div_eq_of_lt (by omega), Nat.div_eq_of_lt (by omega)]
  simp only [windowStarts, h1, h2, List.range_succ_eq_map]
  simp only [List.map_cons, List.map_map, Nat.zero_mul]
  congr 1
  apply List.map_congr_left
  intro i _
  simp [Nat.succ_mul]

theorem winChunks_cons {w : ℕ} (hw : 0 < w) {l : List α} (hl : l ≠ []) :
    winChunks w l = l.take w :: winChunks w (l.drop w) := by
  have hn : 0 < l.length := List.length_pos.mpr hl
  simp only [winChunks, windowStarts_cons hw hn, List.map_cons, List.map_map]
  congr 1
  rw [List.length_drop]
  apply List.map_congr_left
  intro a _
  simp only [Function.comp_apply, List.drop_drop]
  rw [Nat.add_comm]

theorem length_hashSeq (d : List ℕ) : (hashSeq d).length = (d.length + 7) / 8 := by
  simp [hashSeq, length_winChunks]

theorem length_frameDistances {c s : List ℕ} (h1 : c.length = s.length)
    (h2 : c.length % 8 = 0) : (frameDistances c s).length = c.length / 8 := by
  simp only [frameDistances, List.length_zipWith, length_hashSeq, h1]
  omega

/-- On well-formed inputs `compare_perceptual_hashes` returns a full verdict
whose `worst_window_mean_distance` is the two-decimal rounding of the maximum
window-mean Hamming distance and whose `is_valid` compares that (unrounded)
maximum against the 5.0-bit threshold. -/
theorem compare_ok (c s : List ℕ) (h1 : c.length = s.length)
    (h2 : c.length % 8 = 0) (h3 : 0 < c.length) :
    ∃ M r, specWorstMean c s 60 = some M ∧
      compare_perceptual_hashes c s 60 30 = .ok (.result r) ∧
      r.worst_window_mean_distance = round2 M ∧
      r.is_valid = decide (M < 5) := by
  have hfd : (frameDistances c s).length = c.length / 8 := length_frameDistances h1 h2
  have hwm : (windowMeanDistances c s 60).length = (c.length / 8 + 59) / 60 := by
    simp [windowMeanDistances, length_winChunks, hfd]
  have hpos : 0 < (windowMeanDistances c s 60).length := by
    rw [hwm]; omega
  obtain ⟨m, ms, h4⟩ : ∃ m ms, windowMeanDistances c s 60 = m :: ms := by
    cases hcase : windowMeanDistances c s 60 with
    | nil => rw [hcase] at hpos; simp at hpos
    | cons a t => exact ⟨a, t, rfl⟩
  have hspec : specWorstMean c s 60 = some (qMax1 m ms) := by
    simp only [specWorstMean, h4]
  have h4' := h4
  simp only [windowMeanDistances, frameDistances, hashSeq] at h4'
  have hne : ¬ (c.length ≠ s.length) := by simp [h1]
  have hne2 : ¬ (c.length % 8 ≠ 0) := by simp [h2]
  refine ⟨qMax1 m ms, ?_⟩
  simp only [compare_perceptual_hashes, if_neg hne, if_neg hne2, h4']
  exact ⟨_, hspec, rfl, rfl, rfl⟩

theorem rndInt_low {q : ℚ} {z : ℤ} (h1 : ⌊q⌋ = z) (h2 : q - z < 1 / 2) :
    rndInt q = z := by
  simp only [rndInt, h1]
  rw [if_pos h2]

theorem rndInt_high {q : ℚ} {z : ℤ} (h1 : ⌊q⌋ = z) (h2 : q - z > 1 / 2) :
    rndInt q = z + 1 := by
  simp only [rndInt, h1]
  rw [if_neg (by linarith), if_pos h2]

theorem round2_eval {q : ℚ} {z : ℤ} (h1 : ⌊q * 100⌋ = z) (h2 : q * 100 - z < 1 / 2) :
    round2 q = z / 100 := by
  simp only [round2, rndInt_low h1 h2]

/-- `worst_window_mean_distance` of a well-formed comparison, from the
spec-side maximum. -/
theorem worstField_eval (c s : List ℕ) (h1 : c.length = s.length)
    (h2 : c.length % 8 = 0) (h3 : 0 < c.length) {v : ℚ}
    (hspec : specWorstMean c s 60 = some v) :
    worstField (compare_perceptual_hashes c s 60 30) = some (round2 v) := by
  obtain ⟨M, r, hs, hc, hw, _⟩ := compare_ok c s h1 h2 h3
  rw [hspec] at hs
  obtain rfl : v = M := by simpa using hs
  simp only [worstField, hc, hw]

/-- C5: as stated the claim is false: `compare_perceptual_hashes` returns
`worst_window_mean_distance` only after rounding to two decimals, so for a
3-frame input whose single window has mean Hamming distance 1/3 the returned
field is 0.33, not the exact maximum 1/3 (the unrounded maximum is what
`is_valid` compares against 5.0). -/
theorem claim_C5_counterexample :
    worstField (compare_perceptual_hashes (1 :: List.replicate 23 0)
      (List.replicate 24 0) 60 30) = some (33 / 100)
    ∧ specWorstMean (1 :: List.replicate 23 0) (List.replicate 24 0) 60 = some (1 / 3)
    ∧ (33 / 100 : ℚ) ≠ 1 / 3 := by
  have hwc : winChunks 60 (frameDistances (1 :: List.replicate 23 0)
      (List.replicate 24 0)) = [[1, 0, 0]] := by decide
  have h2 : windowMeanDistances (1 :: List.replicate 23 0) (List.replicate 24 0) 60
      = [1 / 3] := by
    rw [windowMeanDistances, hwc]
    simp [qMean]
  have h3 : specWorstMean (1 :: List.replicate 23 0) (List.replicate 24 0) 60
      = some (1 / 3) := by
    simp only [specWorstMean, h2, qMax1, List.foldl]
  refine ⟨?_, h3, by norm_num⟩
  rw [worstField_eval _ _ (by decide) (by decide) (by decide) h3]
  have hfl : ⌊(1 : ℚ) / 3 * 100⌋ = 33 := by
    rw [Int.floor_eq_iff]
    norm_num
  rw [round2_eval hfl (by push_cast; norm_num)]
  norm_num

/-- C5 (amended): for equal-length byte strings whose length is a positive
multiple of 8, `compare_perceptual_hashes` returns a verdict whose
`worst_window_mean_distance` equals the maximum over non-overlapping 60-frame
windows of the window-mean Hamming distance *rounded to two decimals*, and
whose `is_valid` is true iff that (unrounded) maximum is strictly below 5.0
bits. -/
theorem claim_C5_amended (c s : List ℕ) (h1 : c.length = s.length)
    (h2 : c.length % 8 = 0) (h3 : 0 < c.length) :
    ∃ M r, specWorstMean c s 60 = some M ∧
      compare_perceptual_hashes c s 60 30 = .ok (.result r) ∧
      r.worst_window_mean_distance = round2 M ∧
      (r.is_valid = true ↔ M < 5) := by
  obtain ⟨M, r, hs, hc, hw, hv⟩ := compare_ok c s h1 h2 h3
  refine ⟨M, r, hs, hc, hw, ?_⟩
  rw [hv]
  exact decide_eq_true_iff

/-- Witness for C5 (amended) at a concrete 1-frame input with Hamming
distance 1. -/
theorem claim_C5_witness :
    ∃ M r, specWorstMean (1 :: List.replicate 7 0) (List.replicate 8 0) 60 = some M ∧
      compare_perceptual_hashes (1 :: List.replicate 7 0) (List.replicate 8 0) 60 30
        = .ok (.result r) ∧
      r.worst_window_mean_distance = round2 M ∧
      (r.is_valid = true ↔ M < 5) :=
  claim_C5_amended (1 :: List.replicate 7 0) (List.replicate 8 0)
    (by decide) (by decide) (by decide)

/-- C10: on two empty byte strings `compare_perceptual_hashes` passes both
input validations (equal lengths, multiple of 8) and then raises (`max()` of
the empty window list) instead of returning a dictionary; whenever the frame
count is at least 1 (and the validations pass) the raising branch is
unreachable and a full verdict dictionary is returned. -/
theorem claim_C10 :
    compare_perceptual_hashes [] [] 60 30 = .error "max() arg is an empty sequence"
    ∧ (∀ c s : List ℕ, c.length = s.length → c.length % 8 = 0 → 1 ≤ c.length / 8 →
        ∃ r, compare_perceptual_hashes c s 60 30 = Except.ok (HashOutcome.result r)) := by
  constructor
  · rfl
  · intro c s h1 h2 h3
    obtain ⟨M, r, _, hc, _, _⟩ := compare_ok c s h1 h2 (by omega)
    exact ⟨r, hc⟩

/-- Witness for C10's universally quantified part at a concrete 1-frame
input. -/
theorem claim_C10_witness :
    ∃ r, compare_perceptual_hashes (List.replicate 8 0) (List.replicate 8 0) 60 30
      = Except.ok (HashOutcome.result r) :=
  claim_C10.2 (List.replicate 8 0) (List.replicate 8 0) rfl (by decide) (by decide)

/-- C8: as stated the claim is false: flipping a bit of a frame's hash at a
position where the candidate and stored hashes already *differ* removes a
difference, and the worst-window mean distance decreases (here from 1 bit to
0 bits on a 1-frame input). -/
theorem claim_C8_counterexample :
    worstField (compare_perceptual_hashes (modifyFrame (1 :: List.replicate 7 0) 0 1)
      (List.replicate 8 0) 60 30) = some 0
    ∧ worstField (compare_perceptual_hashes (1 :: List.replicate 7 0)
      (List.replicate 8 0) 60 30) = some 1
    ∧ ¬ ((1 : ℚ) ≤ 0) := by
  have e1 : modifyFrame (1 :: List.replicate 7 0) 0 1 = List.replicate 8 0 := by decide
  have hs0 : specWorstMean (List.replicate 8 0) (List.replicate 8 0) 60 = some 0 := by
    have hwc : winChunks 60 (frameDistances (List.replicate 8 0) (List.replicate 8 0))
        = [[0]] := by decide
    have hm : windowMeanDistances (List.replicate 8 0) (List.replicate 8 0) 60 = [0] := by
      rw [windowMeanDistances, hwc]
      simp [qMean]
    simp only [specWorstMean, hm, qMax1, List.foldl]
  have hs1 : specWorstMean (1 :: List.replicate 7 0) (List.replicate 8 0) 60
      = some 1 := by
    have hwc : winChunks 60 (frameDistances (1 :: List.replicate 7 0)
        (List.replicate 8 0)) = [[1]] := by decide
    have hm : windowMeanDistances (1 :: List.replicate 7 0) (List.replicate 8 0) 60
        = [1] := by
      rw [windowMeanDistances, hwc]
      simp [qMean]
    simp only [specWorstMean, hm, qMax1, List.foldl]
  refine ⟨?_, ?_, by norm_num⟩
  · rw [e1, worstField_eval _ _ rfl (by decide) (by decide) hs0]
    have hfl : ⌊(0 : ℚ) * 100⌋ = 0 := by norm_num
    rw [round2_eval hfl (by norm_num)]
    norm_num
  · rw [worstField_eval _ _ (by decide) (by decide) (by decide) hs1]
    have hfl : ⌊(1 : ℚ) * 100⌋ = 100 := by norm_num
    rw [round2_eval hfl (by norm_num)]
    norm_num

/-! ## Population-count and byte-encoding lemmas (for C8) -/

theorem popCountAux_congr (n : ℕ) : ∀ f g, n ≤ f → n ≤ g → popCountAux f n = popCountAux g n := by
  induction n using Nat.strong_induction_on with
  | _ n ih =>
    intro f g hf hg
    cases n with
    | zero => cases f <;> cases g <;> rfl
    | succ m =>
      cases f with
      | zero => omega
      | succ f2 =>
        cases g with
        | zero => omega
        | succ g2 =>
          simp only [popCountAux]
          congr 1
          exact ih ((m + 1) / 2) (by omega) f2 g2 (by omega) (by omega)

theorem popCount_unfold (n : ℕ) (h : n ≠ 0) : popCount n = n % 2 + popCount (n / 2) := by
  obtain ⟨m, rfl⟩ : ∃ m, n = m + 1 := ⟨n - 1, by omega⟩
  show popCountAux (m + 1) (m + 1) = _
  simp only [popCountAux, popCount]
  congr 1
  exact popCountAux_congr ((m + 1) / 2) m ((m + 1) / 2) (by omega) (by omega)

theorem popCount_xor_disjoint : ∀ m d : ℕ, m &&& d = 0 →
    popCount (m ^^^ d) = popCount m + popCount d := by
  have key : ∀ k : ℕ, ∀ m d : ℕ, m + d ≤ k → m &&& d = 0 →
      popCount (m ^^^ d) = popCount m + popCount d := by
    intro k
    induction k using Nat.strong_induction_on with
    | _ k ih =>
      intro m d hk hdisj
      by_cases hm : m = 0
      · subst hm
        simp [Nat.zero_xor, popCount, popCountAux]
      by_cases hd : d = 0
      · subst hd
        simp [Nat.xor_zero, popCount, popCountAux]
      have hxor : m ^^^ d ≠ 0 := by
        intro h0
        have : m = d := Nat.xor_eq_zero.mp h0
        subst this
        simp only [Nat.and_self] at hdisj
        exact hm hdisj
      have hmod : (m ^^^ d) % 2 = m % 2 + d % 2 := by
        rw [Nat.xor_mod_two_eq]
        have hand : (m &&& d) % 2 = 0 := by rw [hdisj]
        have : ¬ (m % 2 = 1 ∧ d % 2 = 1) := by
          intro ⟨ha, hb⟩
          have := Nat.and_mod_two_eq_one.mpr ⟨ha, hb⟩
          omega
        omega
      have hdisj2 : (m / 2) &&& (d / 2) = 0 := by
        rw [← Nat.and_div_two, hdisj]
      have hk2 : m / 2 + d / 2 ≤ k - 1 := by omega
      have hk3 : k - 1 < k := by omega
      rw [popCount_unfold _ hxor, popCount_unfold _ hm, popCount_unfold _ hd,
        Nat.xor_div_two, ih (k - 1) hk3 (m / 2) (d / 2) hk2 hdisj2, hmod]
      omega
  intro m d hdisj
  exact key (m + d) m d le_rfl hdisj

theorem hamming_add_flips {h s mask : ℕ} (hdisj : mask &&& (h ^^^ s) = 0) :
    hamming_distance (h ^^^ mask) s = popCount mask + hamming_distance h s := by
  have e1 : (h ^^^ mask) ^^^ s = mask ^^^ (h ^^^ s) := by
    rw [Nat.xor_comm h mask, Nat.xor_assoc]
  rw [hamming_distance, e1, popCount_xor_disjoint _ _ hdisj]
  rfl

theorem leNat_lt (l : List ℕ) (h : ∀ b ∈ l, b < 256) :
    leNat l < 2 ^ (8 * l.length) := by
  induction l with
  | nil => simp [leNat]
  | cons b bs ih =>
    have hb : b < 256 := h b (List.mem_cons_self b bs)
    have hbs : leNat bs < 2 ^ (8 * bs.length) :=
      ih (fun x hx => h x (List.mem_cons_of_mem b hx))
    have hlen : 8 * (b :: bs).length = 8 * bs.length + 8 := by
      simp [List.length_cons]
      ring
    rw [hlen, pow_add]
    simp only [leNat]
    have : b + 2 ^ 8 * leNat bs < 2 ^ 8 * (leNat bs + 1) := by
      have : (2 : ℕ) ^ 8 = 256 := by norm_num
      omega
    calc b + 2 ^ 8 * leNat bs < 2 ^ 8 * (leNat bs + 1) := this
      _ ≤ 2 ^ 8 * 2 ^ (8 * bs.length) := by
          exact Nat.mul_le_mul_left _ (by omega)
      _ = 2 ^ (8 * bs.length) * 2 ^ 8 := by ring

theorem leNat_chunk_lt {l : List ℕ} (h : ∀ b ∈ l, b < 256) (hlen : l.length ≤ 8) :
    leNat l < 2 ^ 64 := by
  have h1 := leNat_lt l h
  have h2 : (2 : ℕ) ^ (8 * l.length) ≤ 2 ^ 64 :=
    Nat.pow_le_pow_right (by omega) (by omega)
  omega

theorem leNat_leBytes8 (n : ℕ) (h : n < 2 ^ 64) : leNat (leBytes8 n) = n := by
  simp only [leBytes8, leNat]
  norm_num
  omega

theorem winChunks_getElem (w : ℕ) (l : List α) (i : ℕ) (h : i < (winChunks w l).length) :
    (winChunks w l).get ⟨i, h⟩ = (l.drop (i * w)).take w := by
  simp [winChunks, windowStarts, List.get_eq_getElem]

theorem modifyFrame_zero (data : List ℕ) (mask : ℕ) :
    modifyFrame data 0 mask = leBytes8 (leNat (data.take 8) ^^^ mask) ++ data.drop 8 := by
  simp [modifyFrame]

theorem modifyFrame_succ (data : List ℕ) (i mask : ℕ) :
    modifyFrame data (i + 1) mask = data.take 8 ++ modifyFrame (data.drop 8) i mask := by
  simp only [modifyFrame]
  have e1 : data.take (8 * (i + 1)) = data.take 8 ++ (data.drop 8).take (8 * i) := by
    rw [show 8 * (i + 1) = 8 + 8 * i by ring, List.take_add]
  have e2 : (data.drop (8 * (i + 1))).take 8 = ((data.drop 8).drop (8 * i)).take 8 := by
    rw [List.drop_drop]
    congr 2
    ring
  have e3 : data.drop (8 * (i + 1) + 8) = (data.drop 8).drop (8 * i + 8) := by
    rw [List.drop_drop]
    congr 1
    ring
  rw [e1, e2, e3]
  simp [List.append_assoc]

theorem length_leBytes8 (n : ℕ) : (leBytes8 n).length = 8 := by
  simp [leBytes8]

theorem length_modifyFrame {data : List ℕ} {i mask : ℕ} (h : 8 * i + 8 ≤ data.length) :
    (modifyFrame data i mask).length = data.length := by
  simp [modifyFrame, length_leBytes8]
  omega

theorem winChunks8_modifyFrame (mask : ℕ) :
    ∀ (i : ℕ) (data : List ℕ), 8 * i + 8 ≤ data.length →
    winChunks 8 (modifyFrame data i mask) =
      (winChunks 8 data).set i (leBytes8 (leNat ((data.drop (8 * i)).take 8) ^^^ mask)) := by
  intro i
  induction i with
  | zero =>
    intro data hlen
    have hd : data ≠ [] := by
      intro h0
      rw [h0] at hlen
      simp at hlen
    have hne : leBytes8 (leNat (data.take 8) ^^^ mask) ++ data.drop 8 ≠ [] := by
      simp [leBytes8]
    rw [modifyFrame_zero, winChunks_cons (by norm_num) hne, winChunks_cons (by norm_num) hd]
    have htake : (leBytes8 (leNat (data.take 8) ^^^ mask) ++ data.drop 8).take 8
        = leBytes8 (leNat (data.take 8) ^^^ mask) := by
      rw [List.take_append_of_le_length (by rw [length_leBytes8])]
      exact List.take_of_length_le (by rw [length_leBytes8])
    have hdrop : (leBytes8 (leNat (data.take 8) ^^^ mask) ++ data.drop 8).drop 8
        = data.drop 8 := by
      rw [List.drop_append_of_le_length (by rw [length_leBytes8])]
      simp [length_leBytes8]
    rw [htake, hdrop]
    simp
  | succ i ih =>
    intro data hlen
    have hd : data ≠ [] := by
      intro h0
      rw [h0] at hlen
      simp at hlen
    have h8 : (data.take 8).length = 8 := by
      rw [List.length_take]
      omega
    have hne : data.take 8 ++ modifyFrame (data.drop 8) i mask ≠ [] := by
      intro h0
      have := congrArg List.length h0
      simp [h8] at this
    rw [modifyFrame_succ, winChunks_cons (by norm_num) hne, winChunks_cons (by norm_num) hd]
    have htake : (data.take 8 ++ modifyFrame (data.drop 8) i mask).take 8 = data.take 8 := by
      rw [List.take_append_of_le_length (by omega)]
      exact List.take_of_length_le (by omega)
    have hdrop : (data.take 8 ++ modifyFrame (data.drop 8) i mask).drop 8
        = modifyFrame (data.drop 8) i mask := by
      rw [List.drop_append_of_le_length (by omega)]
      simp [h8]
    rw [htake, hdrop, ih (data.drop 8) (by rw [List.length_drop]; omega)]
    have echunk : ((data.drop 8).drop (8 * i)).take 8 = (data.drop (8 * (i + 1))).take 8 := by
      rw [List.drop_drop]
      congr 1
      ring
    rw [echunk]
    rfl

theorem hashSeq_modifyFrame {data : List ℕ} {i mask : ℕ}
    (hlen : 8 * i + 8 ≤ data.length) (hbytes : ∀ b ∈ data, b < 256)
    (hmask : mask < 2 ^ 64) :
    hashSeq (modifyFrame data i mask)
      = (hashSeq data).set i (leNat ((data.drop (8 * i)).take 8) ^^^ mask) := by
  have hchunk : ∀ b ∈ (data.drop (8 * i)).take 8, b < 256 := by
    intro b hb
    exact hbytes b (List.mem_of_mem_drop (List.mem_of_mem_take hb))
  have hlt : leNat ((data.drop (8 * i)).take 8) < 2 ^ 64 :=
    leNat_chunk_lt hchunk (by simp [List.length_take])
  have hxlt : leNat ((data.drop (8 * i)).take 8) ^^^ mask < 2 ^ 64 :=
    Nat.xor_lt_two_pow hlt hmask
  rw [hashSeq, winChunks8_modifyFrame mask i data hlen, List.map_set,
    leNat_leBytes8 _ hxlt]
  rfl

theorem zipWith_set_left (f : α → β → γ) :
    ∀ (l : List α) (s : List β) (i : ℕ) (a : α) (h1 : i < l.length) (h2 : i < s.length),
    List.zipWith f (l.set i a) s = (List.zipWith f l s).set i (f a (s.get ⟨i, h2⟩)) := by
  intro l
  induction l with
  | nil => intro s i a h1 h2; simp at h1
  | cons x xs ih =>
    intro s i a h1 h2
    cases s with
    | nil => simp at h2
    | cons y ys =>
      cases i with
      | zero => simp
      | succ j =>
        simp only [List.set, List.zipWith, List.get]
        rw [ih ys j a (by simpa using h1) (by simpa using h2)]

theorem forall2_le_set :
    ∀ (l : List ℕ) (i v : ℕ) (h : i < l.length), l.get ⟨i, h⟩ ≤ v →
    List.Forall₂ (· ≤ ·) l (l.set i v) := by
  intro l
  induction l with
  | nil => intro i v h; simp at h
  | cons x xs ih =>
    intro i v h hv
    cases i with
    | zero =>
      simp only [List.set]
      exact List.Forall₂.cons hv (List.forall₂_same.mpr fun b _ => le_refl b)
    | succ j =>
      simp only [List.set]
      exact List.Forall₂.cons (le_refl x) (ih j v (by simpa using h) hv)

theorem forall2_map {R : α → β → Prop} {S : γ → δ → Prop} (f : α → γ) (g : β → δ)
    (hf : ∀ a b, R a b → S (f a) (g b)) :
    ∀ {l : List α} {l' : List β}, List.Forall₂ R l l' →
      List.Forall₂ S (l.map f) (l'.map g) := by
  intro l l' h
  induction h with
  | nil => simp
  | cons hab htl ih => simpa using List.Forall₂.cons (hf _ _ hab) ih

theorem forall2_winChunks {R : α → β → Prop} {w : ℕ} (hw : 0 < w) :
    ∀ (n : ℕ) (l : List α) (l' : List β), l.length ≤ n → List.Forall₂ R l l' →
      List.Forall₂ (List.Forall₂ R) (winChunks w l) (winChunks w l') := by
  intro n
  induction n with
  | zero =>
    intro l l' hn h
    have hl : l = [] := by
      cases l
      · rfl
      · simp at hn
    subst hl
    have hl' : l' = [] := List.forall₂_nil_left_iff.mp h
    subst hl'
    rw [winChunks_nil, winChunks_nil]
    exact List.Forall₂.nil
  | succ n ih =>
    intro l l' hn h
    cases l with
    | nil =>
      have hl' : l' = [] := List.forall₂_nil_left_iff.mp h
      subst hl'
      rw [winChunks_nil, winChunks_nil]
      exact List.Forall₂.nil
    | cons x xs =>
      rcases List.forall₂_cons_left_iff.mp h with ⟨y, ys, hxy, hxs, rfl⟩
      have hxne : (x :: xs) ≠ [] := by simp
      have hyne : (y :: ys) ≠ [] := by simp
      rw [winChunks_cons hw hxne, winChunks_cons hw hyne]
      refine List.Forall₂.cons (List.forall₂_take w h) ?_
      refine ih _ _ ?_ (List.forall₂_drop w h)
      simp only [List.length_drop, List.length_cons]
      simp only [List.length_cons] at hn
      omega

theorem forall2_sum_le : ∀ {l l' : List ℚ}, List.Forall₂ (· ≤ ·) l l' → l.sum ≤ l'.sum := by
  intro l l' h
  induction h with
  | nil => simp
  | cons hab _ ih =>
    simp only [List.sum_cons]
    exact add_le_add hab ih

theorem qMean_mono {l l' : List ℚ} (h : List.Forall₂ (· ≤ ·) l l') :
    qMean l ≤ qMean l' := by
  have hlen : l.length = l'.length := h.length_eq
  rw [qMean, qMean, ← hlen]
  rcases Nat.eq_zero_or_pos l.length with h0 | h0
  · rw [h0]
    simp
  · have hc : (0 : ℚ) < l.length := by exact_mod_cast h0
    exact (div_le_div_right hc).mpr (forall2_sum_le h)

theorem foldl_max_mono :
    ∀ {ms ms' : List ℚ} {x x' : ℚ}, x ≤ x' → List.Forall₂ (· ≤ ·) ms ms' →
      ms.foldl max x ≤ ms'.foldl max x' := by
  intro ms ms' x x' hx h
  induction h generalizing x x' with
  | nil => simpa using hx
  | cons hab _ ih =>
    simp only [List.foldl_cons]
    exact ih (max_le_max hx hab)

theorem floor_le_rndInt (q : ℚ) : ⌊q⌋ ≤ rndInt q := by
  simp only [rndInt]
  split_ifs <;> omega

theorem rndInt_le_floor_add_one (q : ℚ) : rndInt q ≤ ⌊q⌋ + 1 := by
  simp only [rndInt]
  split_ifs <;> omega

theorem rndInt_mono {x y : ℚ} (h : x ≤ y) : rndInt x ≤ rndInt y := by
  have hf : ⌊x⌋ ≤ ⌊y⌋ := Int.floor_le_floor h
  rcases lt_or_eq_of_le hf with hlt | heq
  · calc rndInt x ≤ ⌊x⌋ + 1 := rndInt_le_floor_add_one x
      _ ≤ ⌊y⌋ := by omega
      _ ≤ rndInt y := floor_le_rndInt y
  · have heq' : ((⌊x⌋ : ℚ)) = ((⌊y⌋ : ℚ)) := by exact_mod_cast heq
    simp only [rndInt]
    split_ifs with h1 h2 h3 h4 h5 h6 h7 h8 h9 h10 h11 h12 <;>
      first
        | omega
        | (exfalso; linarith)

theorem round2_mono {x y : ℚ} (h : x ≤ y) : round2 x ≤ round2 y := by
  have h1 := rndInt_mono (mul_le_mul_of_nonneg_right h (by norm_num : (0 : ℚ) ≤ 100))
  have h2 : ((rndInt (x * 100)) : ℚ) ≤ ((rndInt (y * 100)) : ℚ) := by exact_mod_cast h1
  rw [round2, round2]
  linarith

/-- C8 (amended): flipping bits of one frame's 64-bit candidate hash at
positions where the candidate and stored hashes *agree* (the flip mask is
bitwise disjoint from the current XOR difference) never decreases the
`worst_window_mean_distance` returned by `compare_perceptual_hashes`. -/
theorem claim_C8_amended (c s : List ℕ) (i mask : ℕ)
    (h1 : c.length = s.length) (h2 : c.length % 8 = 0)
    (hbytes : ∀ b ∈ c, b < 256) (hmask : mask < 2 ^ 64)
    (hi : i < c.length / 8)
    (hdisj : mask &&& (leNat ((c.drop (8 * i)).take 8)
      ^^^ leNat ((s.drop (8 * i)).take 8)) = 0) :
    ∃ v v', worstField (compare_perceptual_hashes c s 60 30) = some v ∧
      worstField (compare_perceptual_hashes (modifyFrame c i mask) s 60 30) = some v' ∧
      v ≤ v' := by
  have hlen8 : 8 * i + 8 ≤ c.length := by omega
  have hpos : 0 < c.length := by omega
  have hlenm : (modifyFrame c i mask).length = c.length := length_modifyFrame hlen8
  have hic : i < (hashSeq c).length := by
    rw [length_hashSeq]
    omega
  have his : i < (hashSeq s).length := by
    rw [length_hashSeq]
    omega
  have hif : i < (frameDistances c s).length := by
    rw [length_frameDistances h1 h2]
    exact hi
  -- the frame hashes
  have hc_i : (hashSeq c).get ⟨i, hic⟩ = leNat ((c.drop (8 * i)).take 8) := by
    have := winChunks_getElem 8 c i (by simpa [hashSeq] using hic)
    simp only [hashSeq, List.get_eq_getElem, List.getElem_map]
    rw [List.get_eq_getElem] at this
    rw [this, Nat.mul_comm]
  have hs_i : (hashSeq s).get ⟨i, his⟩ = leNat ((s.drop (8 * i)).take 8) := by
    have := winChunks_getElem 8 s i (by simpa [hashSeq] using his)
    simp only [hashSeq, List.get_eq_getElem, List.getElem_map]
    rw [List.get_eq_getElem] at this
    rw [this, Nat.mul_comm]
  -- the modified distance array is the original with entry i increased
  have hms : hashSeq (modifyFrame c i mask)
      = (hashSeq c).set i (leNat ((c.drop (8 * i)).take 8) ^^^ mask) :=
    hashSeq_modifyFrame hlen8 hbytes hmask
  have hdists : frameDistances (modifyFrame c i mask) s
      = (frameDistances c s).set i
          (hamming_distance (leNat ((c.drop (8 * i)).take 8) ^^^ mask)
            ((hashSeq s).get ⟨i, his⟩)) := by
    rw [frameDistances, hms, zipWith_set_left _ _ _ _ _ hic his]
    rfl
  have hget_dist : (frameDistances c s).get ⟨i, hif⟩
      = hamming_distance ((hashSeq c).get ⟨i, hic⟩) ((hashSeq s).get ⟨i, his⟩) := by
    simp only [frameDistances, List.get_eq_getElem, List.getElem_zipWith]
  have hincrease : (frameDistances c s).get ⟨i, hif⟩
      ≤ hamming_distance (leNat ((c.drop (8 * i)).take 8) ^^^ mask)
          ((hashSeq s).get ⟨i, his⟩) := by
    rw [hget_dist, hc_i, hs_i, hamming_add_flips hdisj]
    omega
  have hF : List.Forall₂ (· ≤ ·) (frameDistances c s) (frameDistances (modifyFrame c i mask) s) := by
    rw [hdists]
    exact forall2_le_set _ _ _ hif hincrease
  -- transport through windows and means
  have hFm : List.Forall₂ (· ≤ ·) (windowMeanDistances c s 60)
      (windowMeanDistances (modifyFrame c i mask) s 60) := by
    rw [windowMeanDistances, windowMeanDistances]
    refine forall2_map _ _ ?_ (forall2_winChunks (by norm_num) (frameDistances c s).length _ _ le_rfl hF)
    intro a b hab
    exact qMean_mono (forall2_map (fun d : ℕ => (d : ℚ)) (fun d : ℕ => (d : ℚ))
      (fun x y hxy => by exact Nat.cast_le.mpr hxy) hab)
  -- both window-mean lists are non-empty
  have hlen1 : 0 < (windowMeanDistances c s 60).length := by
    have : (windowMeanDistances c s 60).length = ((c.length / 8) + 59) / 60 := by
      simp [windowMeanDistances, length_winChunks, length_frameDistances h1 h2]
    rw [this]
    omega
  obtain ⟨m, ms, hcons⟩ : ∃ m ms, windowMeanDistances c s 60 = m :: ms := by
    cases hcase : windowMeanDistances c s 60 with
    | nil => rw [hcase] at hlen1; simp at hlen1
    | cons a t => exact ⟨a, t, rfl⟩
  rw [hcons] at hFm
  rcases List.forall₂_cons_left_iff.mp hFm with ⟨m2, ms2, hm, hms2, hcons2⟩
  -- worst means
  have hspec1 : specWorstMean c s 60 = some (qMax1 m ms) := by
    simp only [specWorstMean, hcons]
  have hspec2 : specWorstMean (modifyFrame c i mask) s 60 = some (qMax1 m2 ms2) := by
    simp only [specWorstMean, hcons2]
  have hmax : qMax1 m ms ≤ qMax1 m2 ms2 := foldl_max_mono hm hms2
  refine ⟨round2 (qMax1 m ms), round2 (qMax1 m2 ms2), ?_, ?_, round2_mono hmax⟩
  · exact worstField_eval c s h1 h2 hpos hspec1
  · exact worstField_eval _ s (by rw [hlenm, h1]) (by rw [hlenm]; exact h2)
      (by rw [hlenm]; exact hpos) hspec2

/-- Witness for C8 (amended): candidate hash 3 vs stored hash 1 (difference
bit 1); flipping the agreeing bit 2 (mask 4). -/
theorem claim_C8_witness :
    ∃ v v', worstField (compare_perceptual_hashes (3 :: List.replicate 7 0)
        (1 :: List.replicate 7 0) 60 30) = some v ∧
      worstField (compare_perceptual_hashes (modifyFrame (3 :: List.replicate 7 0) 0 4)
        (1 :: List.replicate 7 0) 60 30) = some v' ∧
      v ≤ v' :=
  claim_C8_amended (3 :: List.replicate 7 0) (1 :: List.replicate 7 0) 0 4
    rfl (by decide) (by decide) (by decide) (by decide) (by decide)

theorem close_iff_eq {x y : ℚ} (hx : quantStat x) (hy : quantStat y) :
    (|x - y| ≤ 1 / 10 ^ 8 + (1 / 10 ^ 5) * |y|) ↔ x = y := by
  constructor
  · intro h
    by_contra hne
    obtain ⟨⟨z1, rfl⟩, _⟩ := hx
    obtain ⟨⟨z2, rfl⟩, hy2⟩ := hy
    have hz : z1 ≠ z2 := by
      intro h0
      exact hne (by rw [h0])
    have h1 : (1 : ℚ) ≤ |(z1 : ℚ) - (z2 : ℚ)| := by
      have h0 : (1 : ℤ) ≤ |z1 - z2| := Int.one_le_abs (by omega)
      calc (1 : ℚ) ≤ ((|z1 - z2| : ℤ) : ℚ) := by exact_mod_cast h0
        _ = |((z1 - z2 : ℤ) : ℚ)| := Int.cast_abs
        _ = |(z1 : ℚ) - (z2 : ℚ)| := by push_cast; ring_nf
    have h2 : |(z1 : ℚ) / 100 - (z2 : ℚ) / 100| = |(z1 : ℚ) - (z2 : ℚ)| / 100 := by
      rw [div_sub_div_same, abs_div]
      norm_num
    rw [h2] at h
    linarith
  · intro h
    subst h
    simp only [sub_self, abs_zero]
    positivity

theorem allclose_iff_eq : ∀ {a b : List ℚ}, a.length = b.length →
    (∀ x ∈ a, quantStat x) → (∀ x ∈ b, quantStat x) →
    (allclose a b = true ↔ a = b) := by
  intro a
  induction a with
  | nil =>
    intro b hlen _ _
    have : b = [] := by
      cases b
      · rfl
      · simp at hlen
    subst this
    simp [allclose]
  | cons x xs ih =>
    intro b hlen ha hb
    cases b with
    | nil => simp at hlen
    | cons y ys =>
      have hxy := close_iff_eq (ha x (by simp)) (hb y (by simp))
      have hih := ih (by simpa using hlen) (fun v hv => ha v (by simp [hv]))
        (fun v hv => hb v (by simp [hv]))
      simp only [allclose, List.zip_cons_cons, List.all_cons, Bool.and_eq_true,
        decide_eq_true_eq] at *
      constructor
      · intro ⟨h1, h2⟩
        have := hxy.mp h1
        have := hih.mp h2
        simp_all
      · intro h
        have h1 : x = y ∧ xs = ys := by
          constructor
          · exact (List.cons.injEq _ _ _ _ ▸ h).1
          · exact (List.cons.injEq _ _ _ _ ▸ h).2
        exact ⟨hxy.mpr h1.1, hih.mpr h1.2⟩

theorem windowChannelCorr_eq_spec (sqrt : ℚ → ℚ) {cw sw : List ℚ}
    (hlen : cw.length = sw.length)
    (ha : ∀ x ∈ cw, quantStat x) (hb : ∀ x ∈ sw, quantStat x) :
    windowChannelCorr sqrt cw sw = specChanCorr sqrt cw sw := by
  have hclose := allclose_iff_eq hlen ha hb
  rcases le_or_lt cw.length 1 with hl | hl
  · rw [windowChannelCorr, if_neg (by omega), specChanCorr, if_pos (Or.inl hl)]
    by_cases heq : cw = sw
    · rw [if_pos (hclose.mpr heq), if_pos heq]
    · rw [if_neg (fun hc => heq (hclose.mp hc)), if_neg heq]
  · rw [windowChannelCorr, if_pos (by omega)]
    by_cases hden : varSum cw * varSum sw = 0
    · rw [specChanCorr, if_pos (Or.inr hden)]
      simp only [corrcoef, if_pos hden]
      by_cases heq : cw = sw
      · rw [if_pos (hclose.mpr heq), if_pos heq]
      · rw [if_neg (fun hc => heq (hclose.mp hc)), if_neg heq]
    · simp only [corrcoef, if_neg hden]
      rw [specChanCorr, if_neg (by push_neg; exact ⟨by omega, hden⟩)]

theorem codeWindowCorr_eq_spec (sqrt : ℚ → ℚ) {cw sw : List FrameStats}
    (hlen : cw.length = sw.length)
    (ha : ∀ f ∈ cw, quantFS f) (hb : ∀ f ∈ sw, quantFS f) :
    codeWindowCorr sqrt cw sw = specWindowCorr sqrt cw sw := by
  rw [codeWindowCorr, specWindowCorr]
  congr 1
  apply List.map_congr_left
  intro ch hch
  refine windowChannelCorr_eq_spec sqrt (by simp [hlen]) ?_ ?_
  · intro x hx
    obtain ⟨f, hf, rfl⟩ := List.mem_map.mp hx
    exact ha f hf ch hch
  · intro x hx
    obtain ⟨f, hf, rfl⟩ := List.mem_map.mp hx
    exact hb f hf ch hch

theorem zip_chunk_spec {w : ℕ} {c s : List FrameStats} (hlen : c.length = s.length) :
    ∀ p ∈ (winChunks w c).zip (winChunks w s),
      p.1.length = p.2.length ∧ (∀ f ∈ p.1, f ∈ c) ∧ (∀ f ∈ p.2, f ∈ s) := by
  intro p hp
  rcases List.mem_iff_get.mp hp with ⟨⟨i, hi⟩, hpg⟩
  have hic : i < (winChunks w c).length := by
    have := hi
    simp only [List.length_zip] at this
    omega
  have his : i < (winChunks w s).length := by
    have := hi
    simp only [List.length_zip] at this
    omega
  have hzg : (List.zip (winChunks w c) (winChunks w s)).get ⟨i, hi⟩
      = ((winChunks w c).get ⟨i, hic⟩, (winChunks w s).get ⟨i, his⟩) := by
    simp [List.get_eq_getElem, List.getElem_zip]
  rw [hzg] at hpg
  have hc := winChunks_getElem w c i hic
  have hs := winChunks_getElem w s i his
  subst hpg
  refine ⟨?_, ?_, ?_⟩
  · rw [hc, hs]
    simp only [List.length_take, List.length_drop]
    omega
  · intro f hf
    rw [hc] at hf
    exact List.mem_of_mem_drop (List.mem_of_mem_take hf)
  · intro f hf
    rw [hs] at hf
    exact List.mem_of_mem_drop (List.mem_of_mem_take hf)

/-- C6: for equal-length non-empty frame-statistics sequences of the data
model (values quantized to two decimals and bounded), `compare_frame_statistics`
returns a full verdict without raising (also when the last window holds a
single frame), and `is_valid` is true iff the minimum over non-overlapping
60-frame windows of the mean-across-channels correlation is at least 0.90 and
the maximum over windows of the mean-across-channels mean-absolute-difference
is below 0.8, where an undefined correlation counts as 1.0 exactly for
identical window slices and 0.0 otherwise. -/
theorem claim_C6 (sqrt : ℚ → ℚ) (computed stored : List FrameStats)
    (hlen : computed.length = stored.length) (hne : 0 < computed.length)
    (ha : ∀ f ∈ computed, quantFS f) (hb : ∀ f ∈ stored, quantFS f) :
    ∃ C M r, specWorstStats sqrt computed stored 60 = some (C, M) ∧
      compare_frame_statistics sqrt computed stored 60 30
        = Except.ok (StatsOutcome.result r) ∧
      (r.is_valid = true ↔ (C ≥ 90 / 100 ∧ M < 8 / 10)) := by
  have hzl : ((winChunks 60 computed).zip (winChunks 60 stored)).length
      = (computed.length + 59) / 60 := by
    simp [List.length_zip, length_winChunks, hlen]
  have hzpos : 0 < ((winChunks 60 computed).zip (winChunks 60 stored)).length := by
    rw [hzl]
    omega
  obtain ⟨p, ps, hz⟩ : ∃ p ps,
      (winChunks 60 computed).zip (winChunks 60 stored) = p :: ps := by
    cases hcase : (winChunks 60 computed).zip (winChunks 60 stored) with
    | nil => rw [hcase] at hzpos; simp at hzpos
    | cons a t => exact ⟨a, t, rfl⟩
  have hmem := zip_chunk_spec (w := 60) hlen
  rw [hz] at hmem
  have hcorr : ∀ q ∈ p :: ps,
      codeWindowCorr sqrt q.1 q.2 = specWindowCorr sqrt q.1 q.2 := by
    intro q hq
    obtain ⟨hql, hqc, hqs⟩ := hmem q hq
    exact codeWindowCorr_eq_spec sqrt hql (fun f hf => ha f (hqc f hf))
      (fun f hf => hb f (hqs f hf))
  have hne1 : ¬ (computed.length ≠ stored.length) := by simp [hlen]
  have hne2 : ¬ (computed.length = 0) := by omega
  have hspec : specWorstStats sqrt computed stored 60
      = some (qMin1 (specWindowCorr sqrt p.1 p.2)
                (ps.map (fun q => specWindowCorr sqrt q.1 q.2)),
              qMax1 (codeWindowMad p.1 p.2)
                (ps.map (fun q => codeWindowMad q.1 q.2))) := by
    simp only [specWorstStats, hz]
  have hhead : codeWindowCorr sqrt p.1 p.2 = specWindowCorr sqrt p.1 p.2 :=
    hcorr p (by simp)
  have hmap : ps.map (fun q => codeWindowCorr sqrt q.1 q.2)
      = ps.map (fun q => specWindowCorr sqrt q.1 q.2) :=
    List.map_congr_left (fun q hq => hcorr q (by simp [hq]))
  have hcomp : ∃ r, compare_frame_statistics sqrt computed stored 60 30
      = Except.ok (StatsOutcome.result r) ∧
      r.is_valid = decide
        (qMin1 (codeWindowCorr sqrt p.1 p.2)
            (ps.map (fun q => codeWindowCorr sqrt q.1 q.2)) ≥ 90 / 100
          ∧ qMax1 (codeWindowMad p.1 p.2)
            (ps.map (fun q => codeWindowMad q.1 q.2)) < 8 / 10) := by
    simp only [compare_frame_statistics, if_neg hne1, if_neg hne2, hz, List.map_cons]
    exact ⟨_, rfl, rfl⟩
  obtain ⟨r, hr1, hr2⟩ := hcomp
  refine ⟨_, _, r, hspec, hr1, ?_⟩
  rw [hr2, hhead, hmap]
  exact decide_eq_true_iff

/-- Witness for C6 at a single identical all-zero frame (single-frame window,
degenerate correlation). -/
theorem claim_C6_witness :
    ∃ C M r, specWorstStats (fun _ => 0) [FrameStats.mk 0 0 0 0 0 0]
        [FrameStats.mk 0 0 0 0 0 0] 60 = some (C, M) ∧
      compare_frame_statistics (fun _ => 0) [FrameStats.mk 0 0 0 0 0 0]
        [FrameStats.mk 0 0 0 0 0 0] 60 30 = Except.ok (StatsOutcome.result r) ∧
      (r.is_valid = true ↔ (C ≥ 90 / 100 ∧ M < 8 / 10)) := by
  have hq : ∀ f ∈ [FrameStats.mk (0 : ℚ) 0 0 0 0 0], quantFS f := by
    intro f hf
    simp only [List.mem_singleton] at hf
    subst hf
    intro ch hch
    simp only [channels, List.mem_cons, List.mem_singleton, List.not_mem_nil,
      or_false] at hch
    rcases hch with rfl | rfl | rfl | rfl | rfl | rfl <;>
      exact ⟨⟨0, by norm_num⟩, by norm_num⟩
  exact claim_C6 (fun _ => 0) _ _ rfl (by norm_num) hq hq

theorem toClip_valid {fps context_seconds : ℚ} (hfps : 0 < fps)
    (hctx : 0 ≤ context_seconds) {w : WWindow} (hw : w.start_frame ≤ w.end_frame) :
    ValidClip (toClip fps context_seconds w) := by
  rw [ValidClip, toClip]
  simp only
  rw [max_le_iff]
  constructor
  · positivity
  · have hc : ((w.start_frame : ℚ)) ≤ ((w.end_frame : ℚ)) := by exact_mod_cast hw
    have hdiv : (w.start_frame : ℚ) / fps ≤ (w.end_frame : ℚ) / fps :=
      (div_le_div_right hfps).mpr hc
    linarith

/-! ### Generic facts about `sortBy` -/

theorem mem_ordInsertBy (le : α → α → Bool) (a : α) :
    ∀ (l : List α) (x : α), x ∈ ordInsertBy le a l ↔ x = a ∨ x ∈ l := by
  intro l
  induction l with
  | nil => intro x; simp [ordInsertBy]
  | cons b t ih =>
    intro x
    rw [ordInsertBy]
    by_cases h : le a b = true
    · rw [if_pos h]
      simp [or_comm, or_assoc, or_left_comm]
    · rw [if_neg h]
      simp only [List.mem_cons, ih]
      tauto

theorem ordInsertBy_perm (le : α → α → Bool) (a : α) :
    ∀ l : List α, (ordInsertBy le a l).Perm (a :: l) := by
  intro l
  induction l with
  | nil => simp [ordInsertBy]
  | cons b t ih =>
    rw [ordInsertBy]
    by_cases h : le a b = true
    · rw [if_pos h]
    · rw [if_neg h]
      exact (ih.cons b).trans (List.Perm.swap a b t)

theorem sortBy_perm (le : α → α → Bool) : ∀ l : List α, (sortBy le l).Perm l := by
  intro l
  induction l with
  | nil => simp [sortBy]
  | cons b t ih =>
    rw [sortBy]
    exact (ordInsertBy_perm le b (sortBy le t)).trans (ih.cons b)

theorem pairwise_ordInsertBy (le : α → α → Bool)
    (htot : ∀ a b, le a b = true ∨ le b a = true)
    (htrans : ∀ a b c, le a b = true → le b c = true → le a c = true) (a : α) :
    ∀ l : List α, l.Pairwise (fun x y => le x y = true) →
      (ordInsertBy le a l).Pairwise (fun x y => le x y = true) := by
  intro l
  induction l with
  | nil => intro _; simp [ordInsertBy]
  | cons b t ih =>
    intro h
    rw [List.pairwise_cons] at h
    obtain ⟨hb, ht⟩ := h
    rw [ordInsertBy]
    by_cases hab : le a b = true
    · rw [if_pos hab]
      rw [List.pairwise_cons]
      refine ⟨?_, List.pairwise_cons.mpr ⟨hb, ht⟩⟩
      intro x hx
      rcases List.mem_cons.mp hx with rfl | hx2
      · exact hab
      · exact htrans a b x hab (hb x hx2)
    · rw [if_neg hab]
      rw [List.pairwise_cons]
      refine ⟨?_, ih ht⟩
      intro x hx
      rcases (mem_ordInsertBy le a t x).mp hx with hxa | hx2
      · subst hxa
        rcases htot x b with h1 | h1
        · exact absurd h1 hab
        · exact h1
      · exact hb x hx2

theorem pairwise_sortBy (le : α → α → Bool)
    (htot : ∀ a b, le a b = true ∨ le b a = true)
    (htrans : ∀ a b c, le a b = true → le b c = true → le a c = true) :
    ∀ l : List α, (sortBy le l).Pairwise (fun x y => le x y = true) := by
  intro l
  induction l with
  | nil => simp [sortBy]
  | cons b t ih =>
    rw [sortBy]
    exact pairwise_ordInsertBy le htot htrans b _ ih

/-! ### Order-invariance of the greedy merge -/

theorem clipPairs_cons (c : Clip) (l : List Clip) :
    clipPairs (c :: l) = (c.start_time, c.end_time) :: clipPairs l := rfl

/-- The merged intervals depend on the running clip only through its
interval, not its `windows` payload. -/
theorem mergeAux_pairs_congr :
    ∀ (rest : List Clip) (cur cur' : Clip),
      cur.start_time = cur'.start_time → cur.end_time = cur'.end_time →
      clipPairs (mergeAux cur rest) = clipPairs (mergeAux cur' rest) := by
  intro rest
  induction rest with
  | nil =>
    intro cur cur' h1 h2
    simp [mergeAux, clipPairs, h1, h2]
  | cons next t ih =>
    intro cur cur' h1 h2
    rw [mergeAux, mergeAux]
    by_cases hc : next.start_time ≤ cur.end_time + 5
    · rw [if_pos hc, if_pos (h2 ▸ hc)]
      exact ih _ _ (by simp [h1]) (by simp [h2])
    · rw [if_neg hc, if_neg (h2 ▸ hc)]
      rw [clipPairs_cons, clipPairs_cons, h1, h2]

/-- One step of the greedy merge. -/
theorem mergeAux_cons (cur next : Clip) (rest : List Clip) :
    mergeAux cur (next :: rest) =
      if next.start_time ≤ cur.end_time + 5 then
        mergeAux { start_time := cur.start_time
                   end_time := max cur.end_time next.end_time
                   windows := cur.windows ++ next.windows } rest
      else cur :: mergeAux next rest := rfl

/-- Swapping two equal-start clips immediately after the running clip does
not change the merged intervals. -/
theorem mergeAux_swap (cur x y : Clip) (rest : List Clip)
    (hxy : x.start_time = y.start_time) (hx : ValidClip x) (hy : ValidClip y) :
    clipPairs (mergeAux cur (x :: y :: rest))
      = clipPairs (mergeAux cur (y :: x :: rest)) := by
  rw [ValidClip] at hx hy
  rw [mergeAux_cons cur x (y :: rest), mergeAux_cons cur y (x :: rest)]
  by_cases hc : x.start_time ≤ cur.end_time + 5
  · have hc2 : y.start_time ≤ cur.end_time + 5 := by rw [← hxy]; exact hc
    rw [if_pos hc, if_pos hc2]
    rw [mergeAux_cons _ y rest, mergeAux_cons _ x rest]
    have hy2 : y.start_time ≤ max cur.end_time x.end_time + 5 := by
      have := le_max_left cur.end_time x.end_time
      linarith
    have hx2 : x.start_time ≤ max cur.end_time y.end_time + 5 := by
      have := le_max_left cur.end_time y.end_time
      linarith
    rw [if_pos hy2, if_pos hx2]
    apply mergeAux_pairs_congr
    · rfl
    · rw [max_assoc, max_assoc, max_comm x.end_time y.end_time]
  · have hc2 : ¬ y.start_time ≤ cur.end_time + 5 := by rw [← hxy]; exact hc
    rw [if_neg hc, if_neg hc2, clipPairs_cons, clipPairs_cons]
    congr 1
    rw [mergeAux_cons x y rest, mergeAux_cons y x rest]
    have h1 : y.start_time ≤ x.end_time + 5 := by rw [← hxy]; linarith
    have h2 : x.start_time ≤ y.end_time + 5 := by rw [hxy]; linarith
    rw [if_pos h1, if_pos h2]
    apply mergeAux_pairs_congr
    · exact hxy
    · exact max_comm x.end_time y.end_time

/-- A clip can be bubbled to the front of a block of clips that share its
start time without changing the merged intervals. -/
theorem mergeAux_bubble (x : Clip) (hx : ValidClip x) :
    ∀ (A : List Clip) (cur : Clip) (B : List Clip),
      (∀ e ∈ A, e.start_time = x.start_time ∧ ValidClip e) →
      clipPairs (mergeAux cur (A ++ x :: B))
        = clipPairs (mergeAux cur (x :: (A ++ B))) := by
  intro A
  induction A with
  | nil => intro cur B _; rfl
  | cons e A2 ih =>
    intro cur B hA
    obtain ⟨he_start, he_val⟩ := hA e (by simp)
    have hA2 : ∀ f ∈ A2, f.start_time = x.start_time ∧ ValidClip f :=
      fun f hf => hA f (by simp [hf])
    have hswap : clipPairs (mergeAux cur (x :: e :: (A2 ++ B)))
        = clipPairs (mergeAux cur (e :: x :: (A2 ++ B))) :=
      mergeAux_swap cur x e _ he_start.symm hx he_val
    show clipPairs (mergeAux cur (e :: (A2 ++ x :: B)))
      = clipPairs (mergeAux cur (x :: (e :: A2 ++ B)))
    have hre : x :: (e :: A2 ++ B) = x :: e :: (A2 ++ B) := rfl
    rw [hre, hswap]
    rw [mergeAux_cons cur e (A2 ++ x :: B), mergeAux_cons cur e (x :: (A2 ++ B))]
    by_cases hc : e.start_time ≤ cur.end_time + 5
    · rw [if_pos hc, if_pos hc]
      exact ih _ B hA2
    · rw [if_neg hc, if_neg hc, clipPairs_cons, clipPairs_cons]
      congr 1
      exact ih e B hA2

/-- Swapping the first two clips of the whole list (equal starts) does not
change the merged intervals. -/
theorem mergeList_headswap (x y : Clip) (u : List Clip)
    (hxy : x.start_time = y.start_time) (hx : ValidClip x) (hy : ValidClip y) :
    clipPairs (mergeList (x :: y :: u)) = clipPairs (mergeList (y :: x :: u)) := by
  rw [ValidClip] at hx hy
  show clipPairs (mergeAux x (y :: u)) = clipPairs (mergeAux y (x :: u))
  rw [mergeAux_cons x y u, mergeAux_cons y x u]
  have h1 : y.start_time ≤ x.end_time + 5 := by rw [← hxy]; linarith
  have h2 : x.start_time ≤ y.end_time + 5 := by rw [hxy]; linarith
  rw [if_pos h1, if_pos h2]
  apply mergeAux_pairs_congr
  · exact hxy
  · exact max_comm x.end_time y.end_time

/-- Bubble the head through an equal-start prefix, `mergeList` form. -/
theorem mergeList_bubble (a : Clip) (ha : ValidClip a) (A B : List Clip)
    (hA : ∀ e ∈ A, e.start_time = a.start_time ∧ ValidClip e) :
    clipPairs (mergeList (A ++ a :: B)) = clipPairs (mergeList (a :: (A ++ B))) := by
  cases A with
  | nil => rfl
  | cons e A2 =>
    obtain ⟨he_start, he_val⟩ := hA e (by simp)
    have hA2 : ∀ f ∈ A2, f.start_time = a.start_time ∧ ValidClip f :=
      fun f hf => hA f (by simp [hf])
    show clipPairs (mergeAux e (A2 ++ a :: B)) = clipPairs (mergeList (a :: (e :: A2 ++ B)))
    rw [mergeAux_bubble a ha A2 e B hA2]
    have h1 : clipPairs (mergeAux e (a :: (A2 ++ B)))
        = clipPairs (mergeList (e :: a :: (A2 ++ B))) := rfl
    rw [h1, mergeList_headswap e a (A2 ++ B) he_start he_val ha]
    rfl

theorem mergeAux_sorted_perm :
    ∀ (n : ℕ) (l1 l2 : List Clip) (cur : Clip),
      l1.length ≤ n →
      l1.Pairwise (fun a b => a.start_time ≤ b.start_time) →
      l2.Pairwise (fun a b => a.start_time ≤ b.start_time) →
      l1.Perm l2 → (∀ c ∈ l1, ValidClip c) →
      clipPairs (mergeAux cur l1) = clipPairs (mergeAux cur l2) := by
  intro n
  induction n with
  | zero =>
    intro l1 l2 cur hn _ _ hp _
    have h1 : l1 = [] := by
      cases l1 with
      | nil => rfl
      | cons a t => simp at hn
    subst h1
    have h2 : l2 = [] := hp.symm.eq_nil
    subst h2
    rfl
  | succ n ih =>
    intro l1 l2 cur hn hs1 hs2 hp hv
    cases l1 with
    | nil =>
      have h2 : l2 = [] := hp.symm.eq_nil
      subst h2
      rfl
    | cons a t1 =>
      have ha2 : a ∈ l2 := hp.mem_iff.mp (by simp)
      obtain ⟨A, B, rfl⟩ := List.append_of_mem ha2
      have hs2' := hs2
      rw [List.pairwise_append] at hs2'
      obtain ⟨hsA, hsaB, hAB⟩ := hs2'
      have hAstart : ∀ e ∈ A, e.start_time = a.start_time ∧ ValidClip e := by
        intro e heA
        have he2 : e ∈ A ++ a :: B := by simp [heA]
        have he1 : e ∈ a :: t1 := hp.mem_iff.mpr he2
        have hle1 : a.start_time ≤ e.start_time := by
          rcases List.mem_cons.mp he1 with heq | ht
          · rw [heq]
          · exact (List.pairwise_cons.mp hs1).1 e ht
        have hle2 : e.start_time ≤ a.start_time := hAB e heA a (by simp)
        exact ⟨le_antisymm hle2 hle1, hv e he1⟩
      rw [mergeAux_bubble a (hv a (by simp)) A cur B hAstart]
      rw [mergeAux_cons cur a t1, mergeAux_cons cur a (A ++ B)]
      have ht1p : t1.Perm (A ++ B) := by
        have h3 : (a :: t1).Perm (a :: (A ++ B)) := hp.trans List.perm_middle
        exact h3.cons_inv
      have hsAB : (A ++ B).Pairwise (fun a b => a.start_time ≤ b.start_time) := by
        have hsub : (A ++ B).Sublist (A ++ a :: B) :=
          List.Sublist.append_left ((List.Sublist.refl B).cons a) A
        exact hs2.sublist hsub
      have hvt1 : ∀ c ∈ t1, ValidClip c := fun c hc => hv c (by simp [hc])
      have hst1 : t1.Pairwise (fun a b => a.start_time ≤ b.start_time) :=
        (List.pairwise_cons.mp hs1).2
      have hlen : t1.length ≤ n := by
        simp only [List.length_cons] at hn
        omega
      by_cases hc : a.start_time ≤ cur.end_time + 5
      · rw [if_pos hc, if_pos hc]
        exact ih t1 (A ++ B) _ hlen hst1 hsAB ht1p hvt1
      · rw [if_neg hc, if_neg hc, clipPairs_cons, clipPairs_cons]
        congr 1
        exact ih t1 (A ++ B) a hlen hst1 hsAB ht1p hvt1

theorem mergeList_sorted_perm (l1 l2 : List Clip)
    (hs1 : l1.Pairwise (fun a b => a.start_time ≤ b.start_time))
    (hs2 : l2.Pairwise (fun a b => a.start_time ≤ b.start_time))
    (hp : l1.Perm l2) (hv : ∀ c ∈ l1, ValidClip c) :
    clipPairs (mergeList l1) = clipPairs (mergeList l2) := by
  cases l1 with
  | nil =>
    have h2 : l2 = [] := hp.symm.eq_nil
    subst h2
    rfl
  | cons a t1 =>
    have ha2 : a ∈ l2 := hp.mem_iff.mp (by simp)
    obtain ⟨A, B, rfl⟩ := List.append_of_mem ha2
    have hs2' := hs2
    rw [List.pairwise_append] at hs2'
    obtain ⟨hsA, hsaB, hAB⟩ := hs2'
    have hAstart : ∀ e ∈ A, e.start_time = a.start_time ∧ ValidClip e := by
      intro e heA
      have he2 : e ∈ A ++ a :: B := by simp [heA]
      have he1 : e ∈ a :: t1 := hp.mem_iff.mpr he2
      have hle1 : a.start_time ≤ e.start_time := by
        rcases List.mem_cons.mp he1 with heq | ht
        · rw [heq]
        · exact (List.pairwise_cons.mp hs1).1 e ht
      have hle2 : e.start_time ≤ a.start_time := hAB e heA a (by simp)
      exact ⟨le_antisymm hle2 hle1, hv e he1⟩
    rw [mergeList_bubble a (hv a (by simp)) A B hAstart]
    show clipPairs (mergeAux a t1) = clipPairs (mergeAux a (A ++ B))
    have ht1p : t1.Perm (A ++ B) := by
      have h3 : (a :: t1).Perm (a :: (A ++ B)) := hp.trans List.perm_middle
      exact h3.cons_inv
    have hsAB : (A ++ B).Pairwise (fun a b => a.start_time ≤ b.start_time) := by
      have hsub : (A ++ B).Sublist (A ++ a :: B) :=
        List.Sublist.append_left ((List.Sublist.refl B).cons a) A
      exact hs2.sublist hsub
    exact mergeAux_sorted_perm t1.length t1 (A ++ B) a le_rfl
      (List.pairwise_cons.mp hs1).2 hsAB ht1p (fun c hc => hv c (by simp [hc]))

/-- C9: window merging is order-invariant — for well-formed worst windows
(start frame at most end frame) and a positive frame rate, permuting the
input windows does not change the sequence of merged
`(start_time, end_time)` intervals (context padding 1.5 s, merge gap 5.0 s,
inclusive). -/
theorem claim_C9 (windows1 windows2 : List WWindow) (fps : ℚ) (hfps : 0 < fps)
    (hperm : windows1.Perm windows2) (hne : windows1 ≠ [])
    (hwf : ∀ w ∈ windows1, w.start_frame ≤ w.end_frame) :
    clipPairs (merge_overlapping_windows windows1 fps (3 / 2))
      = clipPairs (merge_overlapping_windows windows2 fps (3 / 2)) := by
  have htot : ∀ a b : Clip, decide (a.start_time ≤ b.start_time) = true
      ∨ decide (b.start_time ≤ a.start_time) = true := by
    intro a b
    simp only [decide_eq_true_eq]
    exact le_total _ _
  have htrans : ∀ a b c : Clip, decide (a.start_time ≤ b.start_time) = true →
      decide (b.start_time ≤ c.start_time) = true →
      decide (a.start_time ≤ c.start_time) = true := by
    intro a b c
    simp only [decide_eq_true_eq]
    exact le_trans
  rw [merge_overlapping_windows, merge_overlapping_windows]
  apply mergeList_sorted_perm
  · exact (pairwise_sortBy _ htot htrans _).imp (fun h => by simpa using h)
  · exact (pairwise_sortBy _ htot htrans _).imp (fun h => by simpa using h)
  · exact (sortBy_perm _ _).trans ((hperm.map _).trans (sortBy_perm _ _).symm)
  · intro c hc
    have hc2 : c ∈ windows1.map (toClip fps (3 / 2)) := (sortBy_perm _ _).mem_iff.mp hc
    obtain ⟨w, hw, rfl⟩ := List.mem_map.mp hc2
    exact toClip_valid hfps (by norm_num) (hwf w hw)

/-- Witness for C9: two windows given in both orders. -/
theorem claim_C9_witness :
    clipPairs (merge_overlapping_windows
      [WWindow.mk 0 59, WWindow.mk 300 359] 30 (3 / 2))
      = clipPairs (merge_overlapping_windows
      [WWindow.mk 300 359, WWindow.mk 0 59] 30 (3 / 2)) :=
  claim_C9 [WWindow.mk 0 59, WWindow.mk 300 359] [WWindow.mk 300 359, WWindow.mk 0 59]
    30 (by norm_num) (List.Perm.swap _ _ _) (by simp) (by decide)

theorem lookup_append_none {α : Type} [BEq α] {l1 l2 : List (α × β)} {k : α}
    (h1 : l1.lookup k = none) (h2 : l2.lookup k = none) :
    (l1 ++ l2).lookup k = none := by
  induction l1 with
  | nil => simpa using h2
  | cons p t ih =>
    simp only [List.lookup, List.cons_append] at h1 ⊢
    cases hk : (k == p.1) with
    | true => rw [hk] at h1; simp at h1
    | false =>
      rw [hk] at h1
      exact ih h1

theorem contentStep_no_fingerprints (env : VerifyEnv) (t : ℚ) :
    ((contentStep env t).2.2.1.lookup "fingerprints") = none := by
  unfold contentStep
  dsimp only
  repeat' split
  all_goals rfl

theorem frameStep_no_fingerprints (env : VerifyEnv) :
    ((frameStep env).2.1.lookup "fingerprints") = none := by
  unfold frameStep
  dsimp only
  repeat' split
  all_goals rfl

/-- C3 (code bug): `verify_video_digest` never computes the candidate's
fingerprints and never places a `fingerprints` entry in the result details —
the Windowed Comparator is not invoked at verify time, although cli.py
contains display code for `result.details["fingerprints"]`. -/
theorem claim_C3 (h : String → String) (env : VerifyEnv) (w : ℕ) (t : ℚ) :
    ((verify_video_digest h env w t).details.lookup "fingerprints") = none := by
  have hc := contentStep_no_fingerprints env t
  have hf := frameStep_no_fingerprints env
  unfold verify_video_digest
  dsimp only
  repeat' split
  all_goals first
    | rfl
    | exact lookup_append_none hc hf

/-- C4 (code bug): `sign_video` writes exactly the five package artifacts —
no `dhash.bin`, `phash.bin` or `frame_stats.json` — and its manifest carries
no `fingerprints` sub-manifest (`create_manifest` is called without
`fingerprint_metadata`), although `create_fingerprints` and the manifest's
optional `fingerprints` slot exist in the codebase. -/
theorem claim_C4 (h : String → String) (env : SignEnv) :
    (sign_video h env).writtenFiles = ["digest_video.mp4", "audio_fingerprint.json",
      "metadata.json", "manifest.json", "signature.json"]
    ∧ (match (sign_video h env).manifest with
        | Json.obj entries => entries.lookup "fingerprints"
        | _ => none) = none
    ∧ "dhash.bin" ∉ (sign_video h env).writtenFiles
    ∧ "phash.bin" ∉ (sign_video h env).writtenFiles
    ∧ "frame_stats.json" ∉ (sign_video h env).writtenFiles := by
  refine ⟨rfl, rfl, ?_, ?_, ?_⟩ <;> simp [sign_video]

theorem lookup_append_some {α : Type} [BEq α] {l1 l2 : List (α × β)} {k : α} {v : β}
    (h1 : l1.lookup k = some v) : (l1 ++ l2).lookup k = some v := by
  induction l1 with
  | nil => simp at h1
  | cons p t ih =>
    simp only [List.lookup, List.cons_append] at h1 ⊢
    cases hk : (k == p.1) with
    | true => rw [hk] at h1; exact h1
    | false =>
      rw [hk] at h1
      exact ih h1

theorem foldlMin_mem : ∀ (t : List ℚ) (x : ℚ), t.foldl min x ∈ x :: t := by
  intro t
  induction t with
  | nil => intro x; simp
  | cons a t ih =>
    intro x
    simp only [List.foldl_cons]
    rcases List.mem_cons.mp (ih (min x a)) with h | h
    · rcases min_cases x a with ⟨he, _⟩ | ⟨he, _⟩ <;> rw [h, he] <;> simp
    · simp [h]

theorem qMin1_mem (x : ℚ) (xs : List ℚ) : qMin1 x xs ∈ x :: xs :=
  foldlMin_mem xs x

theorem foldlMin_le : ∀ (t : List ℚ) (x y : ℚ), y ∈ x :: t → t.foldl min x ≤ y := by
  intro t
  induction t with
  | nil =>
    intro x y hy
    simp at hy
    simp [hy]
  | cons a t ih =>
    intro x y hy
    simp only [List.foldl_cons]
    rcases List.mem_cons.mp hy with h1 | hy2
    · rw [h1]
      exact le_trans (ih (min x a) (min x a) (List.mem_cons_self _ _)) (min_le_left x a)
    · rcases List.mem_cons.mp hy2 with h1 | hy3
      · rw [h1]
        exact le_trans (ih (min x a) (min x a) (List.mem_cons_self _ _)) (min_le_right x a)
      · exact ih (min x a) y (List.mem_cons_of_mem _ hy3)

theorem qMin1_le (x : ℚ) (xs : List ℚ) : ∀ y ∈ x :: xs, qMin1 x xs ≤ y :=
  fun y hy => foldlMin_le xs x y hy

theorem zip_map_snd {α β γ : Type} (f : β → γ) :
    ∀ (as : List α) (bs : List β), as.length = bs.length →
      ((as.zip bs).map (fun p => f p.2)) = bs.map f := by
  intro as
  induction as with
  | nil =>
    intro bs h
    have : bs = [] := by
      cases bs
      · rfl
      · simp at h
    subst this
    rfl
  | cons a t ih =>
    intro bs h
    cases bs with
    | nil => simp at h
    | cons b bt =>
      simp only [List.zip_cons_cons, List.map_cons]
      rw [ih bt (by simpa using h)]

theorem winChunks_singleton {l : List α} (hne : l ≠ []) (hle : l.length ≤ 60) :
    winChunks 60 l = [l] := by
  have hpos : 0 < l.length := List.length_pos.mpr hne
  have hws : windowStarts l.length 60 = [0] := by
    rw [windowStarts]
    have : (l.length + 60 - 1) / 60 = 1 := by omega
    rw [this]
    rfl
  rw [winChunks, hws]
  simp [List.take_of_length_le hle]

/-- The value `compute_ssim` returns as `min_window_ssim` is the minimum over
non-overlapping 60-frame windows of the window-mean SSIM. -/
theorem compute_ssim_min {scores : List ℚ} (hne : scores ≠ []) :
    ∃ M mf ws, compute_ssim scores 60 30 = .ok (M, mf, ws)
      ∧ specMinWindowSsim scores = some M := by
  obtain ⟨s0, rest, rfl⟩ : ∃ s0 rest, scores = s0 :: rest := by
    cases scores with
    | nil => exact absurd rfl hne
    | cons a t => exact ⟨a, t, rfl⟩
  by_cases hlen : (s0 :: rest).length ≤ 60
  · have hchunk : winChunks 60 (s0 :: rest) = [s0 :: rest] :=
      winChunks_singleton (by simp) hlen
    have hcomp : compute_ssim (s0 :: rest) 60 30
        = .ok (qMean (s0 :: rest), qMin1 s0 rest,
          [{ start_frame := 0
             end_frame := (s0 :: rest).length - 1
             start_time := "00:00:00"
             end_time := fmtHMS ((((s0 :: rest).length - 1 : ℕ) : ℚ) / 30)
             ssim := qMean (s0 :: rest)
             min_ssim := none
             min_ssim_frame := none
             min_ssim_time := none }]) := by
      simp only [compute_ssim]
      rw [if_pos hlen]
    refine ⟨qMean (s0 :: rest), qMin1 s0 rest, _, hcomp, ?_⟩
    simp only [specMinWindowSsim, hchunk, List.map_cons, List.map_nil, qMin1,
      List.foldl_nil]
  · -- long video: head of the sorted window list is the minimum window mean
    have hlen2 : 60 < (s0 :: rest).length := by omega
    set wd := ((windowStarts (s0 :: rest).length 60).zip
      (winChunks 60 (s0 :: rest))).map (fun p => mkSsimWindow 30 p.1 p.2) with hwd
    have hlenz : (windowStarts (s0 :: rest).length 60).length
        = (winChunks 60 (s0 :: rest)).length := by
      rw [length_windowStarts, length_winChunks]
    have hssim : wd.map (fun w => w.ssim) = (winChunks 60 (s0 :: rest)).map qMean := by
      rw [hwd, List.map_map]
      have : ((fun w : SsimWindow => w.ssim) ∘ (fun p : ℕ × List ℚ => mkSsimWindow 30 p.1 p.2))
          = fun p : ℕ × List ℚ => qMean p.2 := by
        funext p
        rfl
      rw [this]
      exact zip_map_snd qMean _ _ hlenz
    have hwdlen : 0 < wd.length := by
      rw [hwd, List.length_map, List.length_zip, hlenz, Nat.min_self, length_winChunks]
      simp only [List.length_cons]
      omega
    set sorted := sortBy (fun a b => decide (a.ssim ≤ b.ssim)) wd with hsorted
    have hperm : sorted.Perm wd := sortBy_perm _ _
    obtain ⟨w0, ws2, hcons⟩ : ∃ w0 ws2, sorted = w0 :: ws2 := by
      cases hcase : sorted with
      | nil =>
        rw [hcase] at hperm
        have := hperm.length_eq
        simp at this
        omega
      | cons a t => exact ⟨a, t, rfl⟩
    have hpair : sorted.Pairwise (fun a b => a.ssim ≤ b.ssim) := by
      have := pairwise_sortBy (fun a b : SsimWindow => decide (a.ssim ≤ b.ssim))
        (by intro a b; simp only [decide_eq_true_eq]; exact le_total _ _)
        (by intro a b c; simp only [decide_eq_true_eq]; exact le_trans) wd
      rw [← hsorted] at this
      exact this.imp (fun hab => by simpa using hab)
    obtain ⟨m, ms, hms⟩ : ∃ m ms, (winChunks 60 (s0 :: rest)).map qMean = m :: ms := by
      cases hcase : (winChunks 60 (s0 :: rest)).map qMean with
      | nil =>
        have h0 := congrArg List.length hcase
        simp only [List.length_map, length_winChunks, List.length_cons] at h0
        simp at h0
      | cons a t => exact ⟨a, t, rfl⟩
    have hLperm : (sorted.map (fun w => w.ssim)).Perm (m :: ms) := by
      rw [← hms, ← hssim]
      exact hperm.map _
    have hM : w0.ssim = qMin1 m ms := by
      have hmem : qMin1 m ms ∈ m :: ms := qMin1_mem m ms
      have hmem2 : qMin1 m ms ∈ sorted.map (fun w => w.ssim) :=
        hLperm.mem_iff.mpr hmem
      have hub : w0.ssim ≤ qMin1 m ms := by
        rw [hcons] at hmem2
        rcases List.mem_cons.mp hmem2 with heq | hmem3
        · rw [heq]
        · obtain ⟨w', hw', heq⟩ := List.mem_map.mp (by simpa using hmem3)
          rw [hcons] at hpair
          rw [← heq]
          exact (List.pairwise_cons.mp hpair).1 w' hw'
      have hlb : qMin1 m ms ≤ w0.ssim := by
        have hw0 : w0.ssim ∈ m :: ms := by
          apply hLperm.mem_iff.mp
          rw [hcons]
          simp
        exact qMin1_le m ms _ hw0
      exact le_antisymm hub hlb
    have hcomp : compute_ssim (s0 :: rest) 60 30
        = .ok (w0.ssim, qMin1 s0 rest, sorted.take 3) := by
      simp only [compute_ssim]
      rw [if_neg hlen, ← hwd, ← hsorted, hcons]
    refine ⟨w0.ssim, qMin1 s0 rest, sorted.take 3, hcomp, ?_⟩
    rw [specMinWindowSsim, hms, hM]

theorem contentStep_hash_match (env : VerifyEnv) (t : ℚ) (s : String)
    (hs : storedDigestSha env.manifest = Json.str s) (hr : env.recreatedHash = s) :
    contentStep env t =
      (true, true,
        [("recreated_digest_hash", Detail.str env.recreatedHash),
         ("stored_digest_hash", Detail.json (Json.str s)),
         ("ssim_score", Detail.q 1)], [], false) := by
  unfold contentStep
  rw [hs]
  simp [hr]

theorem contentStep_mismatch (env : VerifyEnv) (t : ℚ) (s : String) (scores : List ℚ)
    (M mf : ℚ) (ws : List SsimWindow)
    (hs : storedDigestSha env.manifest = Json.str s) (hr : env.recreatedHash ≠ s)
    (hsc : env.ssimScores = some scores)
    (hcomp : compute_ssim scores 60 30 = .ok (M, mf, ws)) :
    (contentStep env t).1 = false ∧ (contentStep env t).2.1 = decide (t ≤ M) := by
  unfold contentStep
  rw [hs, hsc]
  dsimp only
  rw [hcomp]
  dsimp only
  rw [decide_eq_false hr]
  simp only [Bool.false_eq_true, if_false]
  split
  · next hge => exact ⟨rfl, (decide_eq_true hge).symm⟩
  · next hge => exact ⟨rfl, (decide_eq_false hge).symm⟩

theorem verify_main_eq (h : String → String) (env : VerifyEnv) (w : ℕ) (t : ℚ)
    (hp : env.packageIsDir = true) (hm : env.manifestExists = true)
    (hsg : env.signatureExists = true) (hd : env.digestExists = true)
    (hl : env.loadOk = true) (hc : env.compressOk = true) :
    verify_video_digest h env w t =
      { is_valid := (decide (calculate_manifest_hash h (Json.obj env.manifest)
            = env.sigManifestHash) && (frameStep env).1)
          && ((contentStep env t).1 || (contentStep env t).2.1)
        checks := [("package_structure", true),
          ("manifest_integrity", decide (calculate_manifest_hash h (Json.obj env.manifest)
            = env.sigManifestHash)),
          ("digest_hash_match", (contentStep env t).1),
          ("ssim_score", (contentStep env t).2.1),
          ("frame_count_match", (frameStep env).1)]
        details := (contentStep env t).2.2.1 ++ (frameStep env).2.1
        errors := (if calculate_manifest_hash h (Json.obj env.manifest)
            = env.sigManifestHash then [] else ["Manifest integrity check failed"])
          ++ ((contentStep env t).2.2.2.1 ++ (frameStep env).2.2)
        ssimComputed := (contentStep env t).2.2.2.2 } := by
  unfold verify_video_digest
  simp [hp, hm, hsg, hd, hl, hc, lookupD, List.lookup, List.all]

/-- C1: the overall verdict of `verify_video_digest` always equals
`package_structure && manifest_integrity && frame_count_match &&
(digest_hash_match || ssim_score)` over the recorded checks; and whenever the
recomputed digest's SHA-256 equals the stored digest's SHA-256 on a
well-formed package, both content checks pass, the result records
`ssim_score = 1.0` in its details, and no SSIM computation is performed. -/
theorem claim_C1 (h : String → String) (env : VerifyEnv) (w : ℕ) (t : ℚ) :
    ((verify_video_digest h env w t).is_valid
      = (lookupD (verify_video_digest h env w t).checks "package_structure"
        && lookupD (verify_video_digest h env w t).checks "manifest_integrity"
        && lookupD (verify_video_digest h env w t).checks "frame_count_match"
        && (lookupD (verify_video_digest h env w t).checks "digest_hash_match"
          || lookupD (verify_video_digest h env w t).checks "ssim_score")))
    ∧ (env.packageIsDir = true → env.manifestExists = true →
      env.signatureExists = true → env.digestExists = true →
      env.loadOk = true → env.compressOk = true →
      ∀ s, storedDigestSha env.manifest = Json.str s → env.recreatedHash = s →
      lookupD (verify_video_digest h env w t).checks "digest_hash_match" = true
      ∧ lookupD (verify_video_digest h env w t).checks "ssim_score" = true
      ∧ (verify_video_digest h env w t).details.lookup "ssim_score"
          = some (Detail.q 1)
      ∧ (verify_video_digest h env w t).ssimComputed = false) := by
  constructor
  · unfold verify_video_digest
    dsimp only
    repeat' split
    all_goals simp [lookupD, List.lookup, List.all]
  · intro hp hm hsg hd hl hc s hs hr
    have hco := contentStep_hash_match env t s hs hr
    rw [verify_main_eq h env w t hp hm hsg hd hl hc]
    refine ⟨?_, ?_, ?_, ?_⟩ <;>
      simp [hco, lookupD, List.lookup, List.cons_append]

theorem claim_C1_witness :
    lookupD (verify_video_digest (fun _ => "") envC1 240 (92/100)).checks
      "digest_hash_match" = true
    ∧ (verify_video_digest (fun _ => "") envC1 240 (92/100)).ssimComputed = false := by
  have H := (claim_C1 (fun _ => "") envC1 240 (92/100)).2
    rfl rfl rfl rfl rfl rfl "abc" rfl rfl
  exact ⟨H.1, H.2.2.2⟩

/-- C2: at verify time the CLI uses SSIM threshold 0.92; on a well-formed
package whose recomputed digest hash differs from the stored one, the
verifier's `ssim_score` check passes iff the minimum over non-overlapping
60-frame windows of the window-mean SSIM is at least 0.92. -/
theorem claim_C2 (h : String → String) (env : VerifyEnv) (s : String) (scores : List ℚ)
    (hp : env.packageIsDir = true) (hm : env.manifestExists = true)
    (hsg : env.signatureExists = true) (hd : env.digestExists = true)
    (hl : env.loadOk = true) (hc : env.compressOk = true)
    (hs : storedDigestSha env.manifest = Json.str s)
    (hr : env.recreatedHash ≠ s)
    (hsc : env.ssimScores = some scores) (hne : scores ≠ []) :
    ∃ M, specMinWindowSsim scores = some M
      ∧ lookupD (cli_verify h env).checks "digest_hash_match" = false
      ∧ (lookupD (cli_verify h env).checks "ssim_score" = true ↔ (92:ℚ)/100 ≤ M) := by
  obtain ⟨M, mf, ws, hcomp, hspec⟩ := compute_ssim_min hne
  obtain ⟨h1, h2⟩ := contentStep_mismatch env (92/100) s scores M mf ws hs hr hsc hcomp
  refine ⟨M, hspec, ?_, ?_⟩
  · rw [cli_verify, verify_main_eq h env 240 (92/100) hp hm hsg hd hl hc]
    simp [lookupD, List.lookup, h1]
  · rw [cli_verify, verify_main_eq h env 240 (92/100) hp hm hsg hd hl hc]
    simp [lookupD, List.lookup, h2]

theorem claim_C2_witness :
    ∃ M, specMinWindowSsim [1] = some M
      ∧ lookupD (cli_verify (fun _ => "") envC2).checks "digest_hash_match" = false
      ∧ (lookupD (cli_verify (fun _ => "") envC2).checks "ssim_score" = true
        ↔ (92:ℚ)/100 ≤ M) :=
  claim_C2 (fun _ => "") envC2 "abc" [1] rfl rfl rfl rfl rfl rfl rfl
    (by decide) rfl (by decide)

/-- C7: the signature produced by `create_signature` carries `manifest_hash`
equal to the hash of the canonical JSON form of the manifest (keys sorted,
compact separators), and on a loadable package whose signature carries
exactly that hash of the saved manifest, the verifier's manifest-integrity
recomputation succeeds. -/
theorem claim_C7 (h : String → String) (m : Json) (env : VerifyEnv) (w : ℕ) (t : ℚ)
    (hp : env.packageIsDir = true) (hm : env.manifestExists = true)
    (hsg : env.signatureExists = true) (hd : env.digestExists = true)
    (hl : env.loadOk = true)
    (hsig : env.sigManifestHash
      = (create_signature h (Json.obj env.manifest)).manifest_hash) :
    (create_signature h m).manifest_hash = h (serJson (sortJson m))
    ∧ (verify_video_digest h env w t).checks.lookup "manifest_integrity"
        = some true := by
  refine ⟨rfl, ?_⟩
  unfold verify_video_digest
  simp only [hp, hm, hsg, hd, hl, hsig]
  simp [create_signature, calculate_manifest_hash, List.lookup]
  split
  · simp [List.lookup]
  · simp [List.lookup]

theorem claim_C7_witness :
    (create_signature (fun _ => "H") (Json.obj [])).manifest_hash
      = (fun _ => "H") (serJson (sortJson (Json.obj [])))
    ∧ (verify_video_digest (fun _ => "H") envC7 240 (92/100)).checks.lookup
        "manifest_integrity" = some true :=
  claim_C7 (fun _ => "H") (Json.obj []) envC7 240 (92/100) rfl rfl rfl rfl rfl rfl

end ReelTrust

